import Mathlib

/-!
Verification development for the bom-pack nesting engine.

The Python sources are shallowly embedded over `ℚ` (the code computes with
floats, but every operation it performs on coordinates is exact rational
arithmetic: `+`, `-`, `*`, `/`, comparisons, `int()` truncation).  Stateful
methods become explicit state passing; code that can raise a Python runtime
error returns `Except PyErr`; the process-pool maps of the genetic optimizer
are order-preserving pure maps; `random.*` draws are read from explicit
oracle streams (`rq : ℕ → ℚ`, `rn : ℕ → ℕ`) indexed by a running counter, one
draw per call, so every theorem quantifying over the streams covers every
realization of the randomness.
-/

/-- Python runtime errors that the embedded nesting code can raise. -/
inductive PyErr where
  /-- `ZeroDivisionError`, from `360 / rotation_steps` with `rotation_steps = 0`. -/
  | zeroDivision
  /-- `AttributeError`, from reading `.placements` off a `Placement` object
  (free spaces are `Placement`s and have no such attribute). -/
  | attributeMissing
  /-- `ValueError`, from `random.randint(0, -1)` on an empty genome. -/
  | emptyRandRange
  /-- `TypeError`, from using `None` where a genome is required. -/
  | noneType
  /-- `IndexError`, from an out-of-range list subscript. -/
  | indexOut
  /-- `ValueError`, from `max()` of an empty sequence. -/
  | emptyMax
deriving DecidableEq, Repr

instance {ε α : Type} [DecidableEq ε] [DecidableEq α] : DecidableEq (Except ε α)
  | .error e, .error f => decidable_of_iff (e = f) (by simp)
  | .error _, .ok _ => isFalse (by simp)
  | .ok _, .error _ => isFalse (by simp)
  | .ok a, .ok b => decidable_of_iff (a = b) (by simp)

/-- `Rectangle` of shapes.py: one part's bounding footprint. -/
structure Rect where
  width : ℚ
  height : ℚ
deriving DecidableEq, Repr

/-- `Placement` of shapes.py, together with the `shape_index` attribute that
the nesters attach dynamically after construction (0 until assigned). -/
structure Plc where
  x : ℚ
  y : ℚ
  width : ℚ
  height : ℚ
  rotation : ℚ
  shapeIndex : ℕ := 0
deriving DecidableEq, Repr

/-- Python `int()` applied to a float: truncation toward zero. -/
def pyInt (q : ℚ) : ℤ := q.num.tdiv q.den

/-- Python `range(a, b, s)` with a positive step, as a list. -/
def pyRange (a b : ℤ) (s : ℕ) : List ℤ :=
  if a < b then (List.range ((b - a - 1).toNat / s + 1)).map (fun k => a + ((k * s : ℕ) : ℤ))
  else []

/-- The `overlaps` helper, written identically in simple.py and genetic.py:
strict inequalities, so touching edges do not count as an overlap. -/
def overlapsB (a b : Plc) : Bool :=
  decide (a.x < b.x + b.width) && decide (a.x + a.width > b.x) &&
  decide (a.y < b.y + b.height) && decide (a.y + a.height > b.y)

/-- Open-rectangle overlap as the spec states it (shared edges permitted). -/
def OverlapsOpen (a b : Plc) : Prop :=
  a.x < b.x + b.width ∧ b.x < a.x + a.width ∧ a.y < b.y + b.height ∧ b.y < a.y + a.height

/-- The sort method names accepted by `sort_shapes` (config `sort_method`). -/
inductive SortMethod where
  | area | byHeight | byWidth | perimeter
deriving DecidableEq, Repr

/-- The placement strategy names the nesters compare against. -/
inductive Strategy where
  | bottomLeft | bestShortSide | bestLongSide | bestFit
deriving DecidableEq, Repr

/-- The sort key used by `sort_shapes` for each method. -/
def rectKey (m : SortMethod) (r : Rect) : ℚ :=
  match m with
  | .area => r.width * r.height
  | .byHeight => r.height
  | .byWidth => r.width
  | .perimeter => r.width + r.height

/-- Python `sorted(l, key=key, reverse=True)`: a stable descending sort. -/
def sortDescBy (key : α → ℚ) (l : List α) : List α :=
  l.mergeSort (fun a b => decide (key b ≤ key a))

namespace Gen

/-- The configuration fields `GeneticNester.__init__` keeps (genetic.py lines
12-21).  The constructor performs no validation whatsoever. -/
structure Config where
  binWidth : ℚ
  binHeight : ℚ
  populationSize : ℕ
  generations : ℕ
  mutationRate : ℚ
  rotationSteps : ℕ
  allowFlip : Bool
deriving DecidableEq, Repr

/-- `Bin` of shapes.py as the genetic nester uses it. -/
structure GBin where
  width : ℚ
  height : ℚ
  placements : List Plc := []
deriving DecidableEq, Repr

/-- One gene `(shape_index, rotation, flip)`. -/
abbrev Gene := ℕ × ℚ × Bool

/-- A genome: one gene per input shape. -/
abbrev Genome := List Gene

/-- `GeneticNester.is_valid_placement` (genetic.py lines 179-188). -/
def is_valid_placement (bin : GBin) (p : Plc) : Bool :=
  if p.x + p.width > bin.width ∨ p.y + p.height > bin.height then false
  else bin.placements.all (fun q => !(overlapsB p q))

/-- The grid of candidate positions scanned by
`GeneticNester.find_best_placement_in_bin` (genetic.py lines 167-168):
`int()`-truncated bounds, stepped by `max(1, int(dim / 2))`. -/
def candidatePositions (bin : GBin) (width height : ℚ) : List (ℤ × ℤ) :=
  (pyRange 0 (pyInt bin.height) (max 1 (pyInt (height / 2)).toNat)).flatMap
    (fun y => (pyRange 0 (pyInt bin.width) (max 1 (pyInt (width / 2)).toNat)).map
      (fun x => (x, y)))

/-- `GeneticNester.find_best_placement_in_bin` (genetic.py lines 160-177).
The body tracks `min_y`/`min_x` but executes `return best_placement` inside
the validity branch, so the net effect is: return the first valid candidate
in scan order. -/
def find_best_placement_in_bin (width height rotation : ℚ) (bin : GBin) : Option Plc :=
  ((candidatePositions bin width height).map
    (fun c => ({ x := (c.1 : ℚ), y := (c.2 : ℚ), width := width, height := height,
                 rotation := rotation } : Plc))).find?
    (fun p => is_valid_placement bin p)

/-- The `for bin in bins` first-fit scan of `create_bins_from_solution`
(genetic.py lines 140-149): place in the first bin that accepts the shape,
returning the updated bin list, or `none` if no bin accepts it. -/
def placeFirstFit (si : ℕ) (width height rotation : ℚ) : List GBin → Option (List GBin)
  | [] => none
  | bin :: rest =>
    match find_best_placement_in_bin width height rotation bin with
    | some p =>
      some ({ bin with placements := bin.placements ++ [{ p with shapeIndex := si }] } :: rest)
    | none => (placeFirstFit si width height rotation rest).map (fun bs => bin :: bs)

/-- The body of the `for shape_index, rotation, flip in solution` loop of
`create_bins_from_solution` (genetic.py lines 135-156): compute the placed
extents from the flip bit, try the bins first-fit, else open a new bin and
put the shape at `(0, 0)` without any fit check (lines 151-156).
`self.shapes[shape_index]` raises `IndexError` when a gene's index is out of
range. -/
def decodeStep (cfg : Config) (shapes : List Rect) (bins : List GBin) (gene : Gene) :
    Except PyErr (List GBin) :=
  match shapes.get? gene.1 with
  | none => throw PyErr.indexOut
  | some shape =>
    let width := if gene.2.2 then shape.height else shape.width
    let height := if gene.2.2 then shape.width else shape.height
    let fallback : Plc :=
      { x := 0, y := 0, width := width, height := height,
        rotation := gene.2.1, shapeIndex := gene.1 }
    match placeFirstFit gene.1 width height gene.2.1 bins with
    | some bins2 => pure bins2
    | none =>
      pure (bins ++ [({ width := cfg.binWidth, height := cfg.binHeight,
                        placements := [fallback] } : GBin)])

/-- `GeneticNester.create_bins_from_solution` (genetic.py lines 130-158):
fold `decodeStep` over the genome, starting from one (possibly never used)
bin of the configured sheet size. -/
def create_bins_from_solution (cfg : Config) (shapes : List Rect) (solution : Genome) :
    Except PyErr (List GBin) :=
  solution.foldlM (decodeStep cfg shapes)
    [({ width := cfg.binWidth, height := cfg.binHeight } : GBin)]

/-- `GeneticNester.calculate_fitness` (genetic.py lines 87-91).  (With a bin
of zero area Python would raise `ZeroDivisionError`; bins always have the
configured sheet size, so this is reachable only with a zero-area sheet,
which every theorem below excludes via the valid-configuration hypotheses.) -/
def calculate_fitness (cfg : Config) (shapes : List Rect) (solution : Genome) :
    Except PyErr ℚ := do
  let bins ← create_bins_from_solution cfg shapes solution
  let total := (bins.map (fun b => b.width * b.height)).sum
  let used := (bins.map (fun b => (b.placements.map (fun p => p.width * p.height)).sum)).sum
  pure (used / total)

/-- The cumulative-fitness scan of `GeneticNester.select_parent` (genetic.py
lines 99-104). -/
def selectParentGo (pick : ℚ) (fallback : Genome) : ℚ → List (Genome × ℚ) → Genome
  | _, [] => fallback
  | current, (sol, fit) :: rest =>
    if current + fit > pick then sol else selectParentGo pick fallback (current + fit) rest

/-- `GeneticNester.select_parent` (genetic.py lines 93-104), with the
roulette draw `pick = random.uniform(0, total_fitness)` supplied by the
oracle.  The Python fallback is `population[-1]`; an empty population would
raise `IndexError` there, modelled by the (unreachable for a nonempty
population) default `[]`. -/
def select_parent (population : List Genome) (scores : List ℚ) (pick : ℚ) : Genome :=
  selectParentGo pick (population.getLastD []) 0 (population.zip scores)

/-- `GeneticNester.crossover` (genetic.py lines 106-112), with the crossover
point already drawn. -/
def crossover (p1 p2 : Genome) (cp : ℕ) : Genome := p1.take cp ++ p2.drop cp

/-- `GeneticNester.mutate` (genetic.py lines 114-128).  `rn`/`rq` are the
oracle streams for `random.randint`/`random.random`, `k` the draw counter;
`random.randint(0, -1)` on an empty genome raises `ValueError`. -/
def mutate (cfg : Config) (rq : ℕ → ℚ) (rn : ℕ → ℕ) (sol : Genome) (k : ℕ) :
    Except PyErr (Genome × ℕ) :=
  if sol.length = 0 then throw PyErr.emptyRandRange
  else
    let idx := rn k % sol.length
    let g := sol.getD idx (0, 0, false)
    let k1 := k + 1
    if 1 < cfg.rotationSteps then
      if rq k1 < 1 / 2 then
        let newRot : ℚ := ((rn (k1 + 1) % cfg.rotationSteps : ℕ) : ℚ) * (360 / (cfg.rotationSteps : ℚ))
        pure (sol.set idx (g.1, newRot, g.2.2), k1 + 2)
      else if cfg.allowFlip then pure (sol.set idx (g.1, g.2.1, !g.2.2), k1 + 1)
      else pure (sol, k1 + 1)
    else if cfg.allowFlip then pure (sol.set idx (g.1, g.2.1, !g.2.2), k1)
    else pure (sol, k1)

/-- The `while len(new_population) < population_size` loop of
`GeneticNester.nest` (genetic.py lines 62-69), building the required number
of children: two roulette draws for the parents, one draw for the crossover
point, one draw deciding mutation. -/
def buildChildren (cfg : Config) (rq : ℕ → ℚ) (rn : ℕ → ℕ)
    (population : List Genome) (scores : List ℚ) :
    ℕ → ℕ → Except PyErr (List Genome × ℕ)
  | 0, k => pure ([], k)
  | n + 1, k => do
    let parent1 := select_parent population scores (rq k)
    let parent2 := select_parent population scores (rq (k + 1))
    if parent1.length = 0 then throw PyErr.emptyRandRange
    else
      let cp := rn (k + 2) % parent1.length
      let child := crossover parent1 parent2 cp
      let k3 := k + 3
      let step ← if rq k3 < cfg.mutationRate then mutate cfg rq rn child (k3 + 1)
                 else pure (child, k3 + 1)
      let rest ← buildChildren cfg rq rn population scores n step.2
      pure (step.1 :: rest.1, rest.2)

/-- One per-generation log record: the tracked best fitness, the tracked
best genome, and the new population built for the next generation (the
values the Python logs after each generation). -/
structure TraceEntry where
  fitness : ℚ
  best : Genome
  newPopulation : List Genome
deriving DecidableEq, Repr

/-- The mutable state of the generation loop in `GeneticNester.nest`
(genetic.py lines 26-71), plus the per-generation log. -/
structure LoopState where
  population : List Genome
  bestSolution : Option Genome
  bestFitness : ℚ
  bestBinCount : WithTop ℕ
  k : ℕ
  trace : List TraceEntry

/-- One iteration of the generation loop of `GeneticNester.nest` (genetic.py
lines 37-71): parallel fitness map, per-generation best, best-so-far update
(strict improvement, or equal fitness with strictly fewer bins), then the
new population `[best_solution] ++ children` (elitism at line 61). -/
def generationStep (cfg : Config) (shapes : List Rect) (rq : ℕ → ℚ) (rn : ℕ → ℕ)
    (st : LoopState) : Except PyErr LoopState := do
  let scores ← st.population.mapM (calculate_fitness cfg shapes)
  match scores.max? with
  | none => throw PyErr.emptyMax
  | some currentBest =>
    let currentBestSolution := st.population.getD (scores.indexOf currentBest) []
    let cbBins ← create_bins_from_solution cfg shapes currentBestSolution
    let currentBinCount : WithTop ℕ := (cbBins.length : WithTop ℕ)
    let better : Bool := decide (currentBest > st.bestFitness) ||
      (decide (currentBest = st.bestFitness) && decide (currentBinCount < st.bestBinCount))
    let bestSolution := if better then some currentBestSolution else st.bestSolution
    let bestFitness := if better then currentBest else st.bestFitness
    let bestBinCount := if better then currentBinCount else st.bestBinCount
    match bestSolution with
    | none => throw PyErr.noneType
    | some g => do
      let children ← buildChildren cfg rq rn st.population scores (cfg.populationSize - 1) st.k
      pure { population := g :: children.1, bestSolution := some g, bestFitness := bestFitness,
             bestBinCount := bestBinCount, k := children.2,
             trace := st.trace ++ [⟨bestFitness, g, g :: children.1⟩] }

/-- `GeneticNester.initialize_population` (genetic.py lines 79-85). -/
def initialize_population (cfg : Config) (numShapes : ℕ) : List Genome :=
  List.replicate cfg.populationSize ((List.range numShapes).map (fun i => (i, (0 : ℚ), false)))

/-- `GeneticNester.nest` (genetic.py lines 23-77): run the generation loop
and decode the best genome.  Returns the bins together with the
per-generation log.  With `generations = 0` the best solution is still
`None` and decoding it raises `TypeError`, as in Python. -/
def nest (cfg : Config) (shapes : List Rect) (rq : ℕ → ℚ) (rn : ℕ → ℕ) :
    Except PyErr (List GBin × List TraceEntry) := do
  let st0 : LoopState :=
    { population := initialize_population cfg shapes.length, bestSolution := none,
      bestFitness := 0, bestBinCount := ⊤, k := 0, trace := [] }
  let stFinal ← (List.range cfg.generations).foldlM
    (fun st _ => generationStep cfg shapes rq rn st) st0
  match stFinal.bestSolution with
  | none => throw PyErr.noneType
  | some g => do
    let bins ← create_bins_from_solution cfg shapes g
    pure (bins, stFinal.trace)

end Gen

/-- `get_bin_utilization` (nester.py lines 29-34 together with
`calculate_used_area`, lines 33-34), applied to a list of bins. -/
def get_bin_utilization (bins : List Gen.GBin) : List ℚ :=
  bins.map (fun b => (b.placements.map (fun p => p.width * p.height)).sum / (b.width * b.height))

/-- A 10×10 sheet configuration for the genetic nester (population 1,
one generation, so the loop is fully deterministic: no random draw is ever
consumed). -/
def oversizeCfg : Gen.Config :=
  { binWidth := 10, binHeight := 10, populationSize := 1, generations := 1,
    mutationRate := 1 / 10, rotationSteps := 4, allowFlip := true }

/-- A single 20×20 part: it does not fit a 10×10 sheet in any rotation or
flip. -/
def oversizeShapes : List Rect := [⟨20, 20⟩]

/-- The genome the genetic nester builds for one shape. -/
def oversizeGenome : Gen.Genome := [(0, 0, false)]

/-- Every bin of the list has pairwise non-overlapping placements (the
spec's no-overlap invariant, as a predicate on a result). -/
def PairwiseNoOverlap (bins : List Gen.GBin) : Prop :=
  ∀ b ∈ bins, b.placements.Pairwise (fun p q => ¬ OverlapsOpen p q)

namespace Gen

/-- The loop invariant behind the elitism law: the logged best-fitness
sequence is monotone, every logged population is headed by the logged best
genome, and the last logged fitness is at most the tracked best fitness. -/
def TraceInv (st : LoopState) : Prop :=
  List.Chain' (fun a b => a.fitness ≤ b.fitness) st.trace ∧
  (∀ e ∈ st.trace, e.newPopulation.head? = some e.best) ∧
  (∀ e ∈ st.trace.getLast?, e.fitness ≤ st.bestFitness)

end Gen

namespace SimpleN

/-- The configuration fields `SimpleNester.__init__` keeps
(nesters/simple.py lines 9-16).  No value is validated. -/
structure Config where
  binWidth : ℚ
  binHeight : ℚ
  rotationSteps : ℕ
  allowFlip : Bool
  sortMethod : SortMethod
  strategy : Strategy
deriving DecidableEq, Repr

/-- `Bin` of shapes.py plus the `spaces` attribute `SimpleNester.nest`
attaches (free spaces are themselves `Placement` objects). -/
structure SBin where
  width : ℚ
  height : ℚ
  placements : List Plc := []
  spaces : List Plc := []
deriving DecidableEq, Repr

/-- `SimpleNester.is_valid_placement` (nesters/simple.py lines 103-112) as
called with an actual bin (line 56). -/
def is_valid_placement (bin : SBin) (p : Plc) : Bool :=
  if p.x + p.width > bin.width ∨ p.y + p.height > bin.height then false
  else bin.placements.all (fun q => !(overlapsB p q))

/-- `SimpleNester.is_valid_placement` as called with a free *space* as the
`bin` argument (line 89).  The bounds test reads `space.width`/`space.height`
and can return `False`; but when it passes, the loop
`for existing_placement in bin.placements` dereferences `.placements` on a
`Placement` object, which raises `AttributeError`. -/
def isValidPlacementOnSpace (space : Plc) (p : Plc) : Except PyErr Bool :=
  if p.x + p.width > space.width ∨ p.y + p.height > space.height then pure false
  else throw PyErr.attributeMissing

/-- `SimpleNester.is_better_placement` (nesters/simple.py lines 153-170):
`bottom_left` and `best_fit` are implemented; any other strategy falls off
the end and returns `None`, which is falsy. -/
def is_better_placement (cfg : Config) (newP : Plc) (current : Option Plc) : Bool :=
  match current with
  | none => true
  | some cur =>
    match cfg.strategy with
    | .bottomLeft =>
      decide (newP.y < cur.y) || (decide (newP.y = cur.y) && decide (newP.x < cur.x))
    | .bestFit =>
      let newWaste := (cfg.binWidth - newP.x - newP.width) * newP.height +
        (cfg.binHeight - newP.y - newP.height) * newP.width
      let curWaste := (cfg.binWidth - cur.x - cur.width) * cur.height +
        (cfg.binHeight - cur.y - cur.height) * cur.width
      decide (newWaste < curWaste)
    | _ => false

/-- The candidate placements enumerated by `SimpleNester.find_best_placement`
(nesters/simple.py lines 63-99), in scan order: rotations, flips, then the
`int()`-truncated grid over the space stepped by
`max(1, min(int(shape.width / 2), int(shape.height / 2)))`. -/
def orientCandidates (cfg : Config) (shape : Rect) (space : Plc) : List Plc :=
  (List.range cfg.rotationSteps).flatMap (fun r =>
    let rotation : ℚ := (r : ℚ) * (360 / (cfg.rotationSteps : ℚ))
    (if cfg.allowFlip then [false, true] else [false]).flatMap (fun flip =>
      let width := if flip then shape.height else shape.width
      let height := if flip then shape.width else shape.height
      if width ≤ space.width ∧ height ≤ space.height then
        let step := max 1 (min (pyInt (shape.width / 2)) (pyInt (shape.height / 2))).toNat
        (pyRange (pyInt space.x) (pyInt (space.x + space.width - width + 1)) step).flatMap
          (fun (x : ℤ) =>
            (pyRange (pyInt space.y) (pyInt (space.y + space.height - height + 1)) step).map
              (fun (y : ℤ) =>
                ({ x := (x : ℚ), y := (y : ℚ), width := width, height := height,
                   rotation := rotation } : Plc)))
      else []))

/-- The candidate loop of `find_best_placement` (lines 80-99): validity is
tested against the *space* (which can raise, see
`isValidPlacementOnSpace`), the best candidate is kept, and under
`bottom_left` the first valid candidate is returned immediately. -/
def fbpLoop (cfg : Config) (space : Plc) :
    List Plc → Option Plc → Except PyErr (Option Plc)
  | [], best => pure best
  | c :: rest, best => do
    let valid ← isValidPlacementOnSpace space c
    if valid then
      if is_better_placement cfg c best then
        if cfg.strategy = Strategy.bottomLeft then pure (some c)
        else fbpLoop cfg space rest (some c)
      else fbpLoop cfg space rest best
    else fbpLoop cfg space rest best

/-- `SimpleNester.find_best_placement` (nesters/simple.py lines 63-101).
`rotations = 360 / self.config["rotation_steps"]` raises
`ZeroDivisionError` when `rotation_steps = 0`, before any scanning. -/
def find_best_placement (cfg : Config) (shape : Rect) (space : Plc) :
    Except PyErr (Option Plc) :=
  if cfg.rotationSteps = 0 then throw PyErr.zeroDivision
  else fbpLoop cfg space (orientCandidates cfg shape space) none

/-- The space loop of `SimpleNester.find_best_placement_in_bin`
(nesters/simple.py lines 50-61): candidates must also pass
`is_valid_placement` against the actual bin. -/
def fbpInBinLoop (cfg : Config) (bin : SBin) (shape : Rect) :
    List Plc → Option Plc → Except PyErr (Option Plc)
  | [], best => pure best
  | space :: rest, best => do
    let r ← find_best_placement cfg shape space
    match r with
    | some p =>
      if is_valid_placement bin p then
        if is_better_placement cfg p best then fbpInBinLoop cfg bin shape rest (some p)
        else fbpInBinLoop cfg bin shape rest best
      else fbpInBinLoop cfg bin shape rest best
    | none => fbpInBinLoop cfg bin shape rest best

/-- `SimpleNester.find_best_placement_in_bin` (nesters/simple.py lines 50-61). -/
def find_best_placement_in_bin (cfg : Config) (shape : Rect) (bin : SBin) :
    Except PyErr (Option Plc) :=
  fbpInBinLoop cfg bin shape bin.spaces none

/-- `SimpleNester.update_spaces` (nesters/simple.py lines 114-143): every
free space overlapping the committed placement is replaced by a *full
height* right space and a *full width* top space, and the list is re-sorted
by `(y, x)` ascending only.  Placements are untouched. -/
def update_spaces (bin : SBin) (placement : Plc) : SBin :=
  let newSpaces := bin.spaces.flatMap (fun space =>
    if overlapsB space placement then
      (if space.x + space.width > placement.x + placement.width then
        [({ x := placement.x + placement.width, y := space.y,
            width := space.x + space.width - (placement.x + placement.width),
            height := space.height, rotation := 0 } : Plc)] else []) ++
      (if space.y + space.height > placement.y + placement.height then
        [({ x := space.x, y := placement.y + placement.height, width := space.width,
            height := space.y + space.height - (placement.y + placement.height),
            rotation := 0 } : Plc)] else [])
    else [space])
  { bin with
    spaces := newSpaces.mergeSort (fun a b =>
      decide (a.y < b.y) || (decide (a.y = b.y) && decide (a.x ≤ b.x))) }

/-- The `for bin in bins` loop of `SimpleNester.nest` (lines 25-32): place
into the first bin whose `find_best_placement_in_bin` succeeds. -/
def tryBins (cfg : Config) (shape : Rect) (idx : ℕ) :
    List SBin → Except PyErr (Option (List SBin))
  | [] => pure none
  | bin :: rest => do
    let r ← find_best_placement_in_bin cfg shape bin
    match r with
    | some p =>
      let p2 := { p with shapeIndex := idx }
      pure (some (update_spaces { bin with placements := bin.placements ++ [p2] } p2 :: rest))
    | none => do
      let o ← tryBins cfg shape idx rest
      pure (o.map (fun bs => bin :: bs))

/-- The main loop of `SimpleNester.nest` (nesters/simple.py lines 23-46).
A shape placed nowhere is logged with a warning and skipped; we return those
(enumerate) indices as the reported unplaced set. -/
def nestGo (cfg : Config) :
    List (ℕ × Rect) → List SBin → List ℕ → Except PyErr (List SBin × List ℕ)
  | [], bins, unplaced => pure (bins, unplaced)
  | (idx, shape) :: rest, bins, unplaced => do
    let r ← tryBins cfg shape idx bins
    match r with
    | some bins2 => nestGo cfg rest bins2 unplaced
    | none => do
      let newBin : SBin :=
        { width := cfg.binWidth, height := cfg.binHeight,
          spaces := [{ x := 0, y := 0, width := cfg.binWidth, height := cfg.binHeight,
                       rotation := 0 }] }
      let rNew ← find_best_placement_in_bin cfg shape newBin
      match rNew with
      | some p =>
        let p2 := { p with shapeIndex := idx }
        nestGo cfg rest
          (bins ++ [update_spaces { newBin with placements := newBin.placements ++ [p2] } p2])
          unplaced
      | none => nestGo cfg rest bins (unplaced ++ [idx])

/-- `SimpleNester.nest` (nesters/simple.py lines 18-48): enumerate, sort
descending by the configured key, then place shapes one by one. -/
def nest (cfg : Config) (shapes : List Rect) : Except PyErr (List SBin × List ℕ) :=
  nestGo cfg (sortDescBy (fun t => rectKey cfg.sortMethod t.2) shapes.enum) [] []

/-- No-overlap invariant for the simple nester's result bins. -/
def SBinsNoOverlap (bins : List SBin) : Prop :=
  ∀ b ∈ bins, b.placements.Pairwise (fun p q => ¬ OverlapsOpen p q)

/-- The multiset (as a list) of `shape_index` values over all placements of
all bins. -/
def placedIndices (bins : List SBin) : List ℕ :=
  (bins.flatMap (fun b => b.placements)).map (fun p => p.shapeIndex)

end SimpleN

/-- Python `//` on floats: mathematical floor of the quotient. -/
def pyFloorQ (q : ℚ) : ℤ := q.num.fdiv q.den

/-- Python `%` on floats: `a - b * (a // b)`. -/
def pyMod (a b : ℚ) : ℚ := a - b * ((pyFloorQ (a / b) : ℤ) : ℚ)

namespace NesterPy

/-- The configuration fields the nester.py `SimpleNester.__init__` keeps
(nester.py lines 38-45).  Identical to nesters/simple.py; no validation. -/
structure Config where
  binWidth : ℚ
  binHeight : ℚ
  rotationSteps : ℕ
  allowFlip : Bool
  sortMethod : SortMethod
  strategy : Strategy
deriving DecidableEq, Repr

/-- `SimpleNester.sort_shapes` (nester.py lines 120-128). -/
def sort_shapes (cfg : Config) (shapes : List Rect) : List Rect :=
  sortDescBy (rectKey cfg.sortMethod) shapes

/-- `SimpleNester.is_better_placement` (nester.py lines 156-173):
`bottom_left`, `best_short_side`, `best_long_side`; anything else returns
`None` (falsy). -/
def is_better_placement (cfg : Config) (newP : Plc) (current : Option Plc) : Bool :=
  match current with
  | none => true
  | some cur =>
    match cfg.strategy with
    | .bottomLeft =>
      decide (newP.y < cur.y) || (decide (newP.y = cur.y) && decide (newP.x < cur.x))
    | .bestShortSide => decide (min newP.width newP.height > min cur.width cur.height)
    | .bestLongSide => decide (max newP.width newP.height > max cur.width cur.height)
    | _ => false

/-- `SimpleNester.find_best_placement` (nester.py lines 130-154): for each
rotation and flip, if the (possibly swapped) extents fit the space, the
candidate sits at the space's corner; keep the better one.  Raises
`ZeroDivisionError` up front when `rotation_steps = 0`. -/
def find_best_placement (cfg : Config) (shape : Rect) (space : Plc) :
    Except PyErr (Option Plc) :=
  if cfg.rotationSteps = 0 then throw PyErr.zeroDivision
  else pure ((List.range cfg.rotationSteps).foldl (fun best r =>
    let rotation : ℚ := (r : ℚ) * (360 / (cfg.rotationSteps : ℚ))
    (if cfg.allowFlip then [false, true] else [false]).foldl (fun best flip =>
      let width := if flip then shape.height else shape.width
      let height := if flip then shape.width else shape.height
      if width ≤ space.width ∧ height ≤ space.height then
        let placement : Plc :=
          { x := space.x, y := space.y, width := width, height := height, rotation := rotation }
        if is_better_placement cfg placement best then some placement else best
      else best) best) none)

/-- The sort at the end of nester.py's `update_spaces` (line 205):
`spaces.sort(key=lambda s: (-s.width * s.height, s.y, s.x))`, i.e. by area
descending, then `(y, x)` ascending; Python's sort is stable. -/
def sortSpacesNester (spaces : List Plc) : List Plc :=
  spaces.mergeSort (fun a b =>
    decide (b.width * b.height < a.width * a.height) ||
    (decide (a.width * a.height = b.width * b.height) &&
      (decide (a.y < b.y) || (decide (a.y = b.y) && decide (a.x ≤ b.x)))))

/-- `SimpleNester.update_spaces` (nester.py lines 175-205): pop the consumed
space, append a right space of the *placed height* and a top space of the
*placed width* when leftover room remains, then re-sort.  `list.pop` raises
`IndexError` on an invalid index (unreachable from `nest`). -/
def update_spaces (spaces : List Plc) (usedIdx : ℕ) (placement : Plc) :
    Except PyErr (List Plc) :=
  match spaces.get? usedIdx with
  | none => throw PyErr.indexOut
  | some used =>
    let rem := spaces.eraseIdx usedIdx
    let withRight := rem ++
      (if used.x + placement.width < used.x + used.width then
        [({ x := used.x + placement.width, y := used.y,
            width := used.width - placement.width, height := placement.height,
            rotation := 0 } : Plc)] else [])
    let withTop := withRight ++
      (if used.y + placement.height < used.y + used.height then
        [({ x := used.x, y := used.y + placement.height, width := placement.width,
            height := used.height - placement.height, rotation := 0 } : Plc)] else [])
    pure (sortSpacesNester withTop)

/-- The scan over all bins' spaces in `SimpleNester.nest` (nester.py lines
63-71), returning the best `(placement, space_index, bin_index)`. -/
def scanBest (cfg : Config) (shape : Rect) (spaces : List (List Plc)) :
    Except PyErr (Option (Plc × ℕ × ℕ)) :=
  spaces.enum.foldlM (fun best bpair =>
    bpair.2.enum.foldlM (fun best spair => do
      let r ← find_best_placement cfg shape spair.2
      match r with
      | some p =>
        if is_better_placement cfg p (best.map (fun t => t.1)) then
          pure (some (p, spair.1, bpair.1))
        else pure best
      | none => pure best) best) none

/-- The full free space of a fresh bin. -/
def freshSpace (cfg : Config) : Plc :=
  { x := 0, y := 0, width := cfg.binWidth, height := cfg.binHeight, rotation := 0 }

/-- The main loop of nester.py's `SimpleNester.nest` (lines 58-104).  The
`shape_index` each placement receives is its position in the *sorted* order
(nester.py enumerates after sorting).  A shape unplaced even in a fresh bin
is logged (we collect its index); note the freshly appended space list stays
either way. -/
def nestGo (cfg : Config) :
    List (ℕ × Rect) → List Plc → List (List Plc) → List ℕ →
    Except PyErr (List Plc × List (List Plc) × List ℕ)
  | [], placements, spaces, unplaced => pure (placements, spaces, unplaced)
  | (shapeIndex, shape) :: rest, placements, spaces, unplaced => do
    let b ← scanBest cfg shape spaces
    match b with
    | some (p, spaceIdx, binIdx) =>
      let p2 := { p with
                  shapeIndex := shapeIndex,
                  x := p.x + (binIdx : ℚ) * cfg.binWidth }
      let ns ← update_spaces (spaces.getD binIdx []) spaceIdx p2
      nestGo cfg rest (placements ++ [p2]) (spaces.set binIdx ns) unplaced
    | none => do
      let newIdx := spaces.length
      let spaces2 := spaces ++ [[freshSpace cfg]]
      let r ← find_best_placement cfg shape (freshSpace cfg)
      match r with
      | some p =>
        let p2 := { p with
                    shapeIndex := shapeIndex,
                    x := p.x + (newIdx : ℚ) * cfg.binWidth }
        let ns ← update_spaces (spaces2.getD newIdx []) 0 p2
        nestGo cfg rest (placements ++ [p2]) (spaces2.set newIdx ns) unplaced
      | none => nestGo cfg rest placements spaces2 (unplaced ++ [shapeIndex])

/-- `while len(bins) <= bin_index: bins.append(Bin(...))` followed by the
append into `bins[bin_index]` (nester.py lines 112-117). -/
def addToBin (cfg : Config) : List Gen.GBin → ℕ → Plc → List Gen.GBin
  | [], 0, p => [{ width := cfg.binWidth, height := cfg.binHeight, placements := [p] }]
  | [], n + 1, p =>
    ({ width := cfg.binWidth, height := cfg.binHeight } : Gen.GBin) :: addToBin cfg [] n p
  | b :: bs, 0, p => { b with placements := b.placements ++ [p] } :: bs
  | b :: bs, n + 1, p => b :: addToBin cfg bs n p

/-- `SimpleNester.create_bins` (nester.py lines 108-118): distribute the
flat placement list into bins by `int(x // bin_width)` and reduce each `x`
modulo the bin width.  (The bins here are the shared shapes.py `Bin`.) -/
def create_bins (cfg : Config) (placements : List Plc) : List Gen.GBin :=
  placements.foldl (fun bins p =>
    addToBin cfg bins (pyFloorQ (p.x / cfg.binWidth)).toNat
      { p with x := pyMod p.x cfg.binWidth }) []

/-- nester.py's `SimpleNester.nest` (lines 47-106): sort, place into the
flat coordinate space, then split into bins; the unplaced indices are the
warning channel. -/
def nest (cfg : Config) (shapes : List Rect) :
    Except PyErr (List Gen.GBin × List ℕ) := do
  let sorted := sort_shapes cfg shapes
  let result ← nestGo cfg sorted.enum [] [[freshSpace cfg]] []
  pure (create_bins cfg result.1, result.2.2)

/-- Shape-index multiset of a bin list (nester.py bins). -/
def placedIdx (bins : List Gen.GBin) : List ℕ :=
  (bins.flatMap (fun b => b.placements)).map (fun p => p.shapeIndex)

end NesterPy

/-- The guillotine split and re-sort exactly as the spec states it: remove
the consumed space, add a right space at `x+placed_width` of the remaining
width and the *placed* height, add a top space at `x` of the *placed* width
and the remaining height above, then sort by area descending and `(y, x)`
ascending. -/
def specGuillotineUpdate (spaces : List Plc) (usedIdx : ℕ) (placement : Plc) :
    Except PyErr (List Plc) :=
  match spaces.get? usedIdx with
  | none => throw PyErr.indexOut
  | some used =>
    let right : List Plc :=
      if placement.width < used.width then
        [{ x := used.x + placement.width, y := used.y,
           width := used.width - placement.width, height := placement.height,
           rotation := 0 }] else []
    let top : List Plc :=
      if placement.height < used.height then
        [{ x := used.x, y := used.y + placement.height, width := placement.width,
           height := used.height - placement.height, rotation := 0 }] else []
    pure (NesterPy.sortSpacesNester ((spaces.eraseIdx usedIdx ++ right) ++ top))

/-- A configuration with `rotation_steps = 0` — the sort of invalid
configuration C5 says must be rejected before packing begins. -/
def zeroStepCfg : SimpleN.Config :=
  { binWidth := 10, binHeight := 10, rotationSteps := 0, allowFlip := true,
    sortMethod := .area, strategy := .bottomLeft }

/-- A perfectly valid configuration for the simple nester. -/
def validSimpleCfg : SimpleN.Config :=
  { binWidth := 10, binHeight := 10, rotationSteps := 1, allowFlip := true,
    sortMethod := .area, strategy := .bottomLeft }

namespace Sky

/-- `SkylineNode` (skyline.py lines 9-13). -/
structure SkyNode where
  x : ℚ
  y : ℚ
  width : ℚ
deriving DecidableEq, Repr, Inhabited

/-- The configuration fields `SkylineNester.__init__` keeps (skyline.py
lines 17-25); `placement_strategy` defaults to `best_fit`, `look_ahead`
to 3. -/
structure Config where
  binWidth : ℚ
  binHeight : ℚ
  rotationSteps : ℕ
  allowFlip : Bool
  sortMethod : SortMethod
  strategy : Strategy
  lookAhead : ℕ
deriving DecidableEq, Repr

/-- `Bin` of shapes.py plus the `skyline` attribute `SkylineNester.nest`
attaches. -/
structure SkyBin where
  width : ℚ
  height : ℚ
  placements : List Plc := []
  skyline : List SkyNode := []
deriving DecidableEq, Repr

/-- The loop body of `SkylineNester.find_min_y` (skyline.py lines 224-230):
accumulate the maximum height while uncovered width remains. -/
def findMinYAux : ℚ → ℚ → List SkyNode → ℚ
  | m, w, [] => m
  | m, w, n :: rest => if 0 < w then findMinYAux (max m n.y) (w - n.width) rest else m

/-- `SkylineNester.find_min_y` (skyline.py lines 219-231).  Python indexes
`skyline[index]` first, so an out-of-range index would raise; every call
site passes an index of an existing node (the `0` default is never
reached). -/
def find_min_y (skyline : List SkyNode) (i : ℕ) (w : ℚ) : ℚ :=
  match skyline.drop i with
  | [] => 0
  | n :: rest => findMinYAux n.y w (n :: rest)

/-- `SkylineNester.calculate_placement_score` (skyline.py lines 149-174):
`best_fit` maximizes touching perimeter (returned negated); every other
strategy minimizes wasted area `(y − skyline[0].y) · width` (Python indexes
`skyline[0]`, which would raise on an empty skyline; the skyline is never
empty, and `headI` returns the default node only in that unreachable
case). -/
def calculate_placement_score (cfg : Config) (p : Plc) (bin : SkyBin) : ℚ :=
  if cfg.strategy = Strategy.bestFit then
    let base : ℚ :=
      (if p.x = 0 then p.height else 0) +
      (if p.x + p.width = bin.width then p.height else 0) +
      (if p.y = 0 then p.width else 0)
    let touching := bin.skyline.foldl (fun acc node =>
      if node.x < p.x + p.width ∧ node.x + node.width > p.x then
        acc + (min (node.x + node.width) (p.x + p.width) - max node.x p.x)
      else acc) base;
    -touching
  else (p.y - (bin.skyline.headI).y) * p.width

/-- The merge loop of `SkylineNester.merge_skyline` (skyline.py lines
210-215): widen the accumulator while heights coincide. -/
def mergeAux (acc : SkyNode) : List SkyNode → List SkyNode
  | [] => [acc]
  | n :: rest =>
    if acc.y = n.y then mergeAux ⟨acc.x, acc.y, acc.width + n.width⟩ rest
    else acc :: mergeAux n rest

/-- `SkylineNester.merge_skyline` (skyline.py lines 206-217). -/
def merge_skyline : List SkyNode → List SkyNode
  | [] => []
  | n :: rest => mergeAux n rest

/-- `SkylineNester.update_skyline` (skyline.py lines 176-204): keep the
nodes left of the placement, insert the placement's node, drop or clip the
covered nodes, keep the rest, then merge equal heights. -/
def update_skyline (bin : SkyBin) (p : Plc) : SkyBin :=
  let before := bin.skyline.takeWhile (fun n => decide (n.x < p.x))
  let rest := bin.skyline.dropWhile (fun n => decide (n.x < p.x))
  let after := rest.filterMap (fun n =>
    if p.x + p.width ≤ n.x then some n
    else if p.x + p.width < n.x + n.width then
      some ⟨p.x + p.width, n.y, n.x + n.width - (p.x + p.width)⟩
    else none)
  { bin with skyline := merge_skyline (before ++ ⟨p.x, p.y + p.height, p.width⟩ :: after) }

/-- The candidate placements enumerated by both skyline placement searches
(skyline.py lines 73-89 and 125-141): for each rotation/flip, each skyline
node wide enough for the (possibly swapped) extents is a candidate at
`(node.x, find_min_y ...)`, rejected when it would exceed the bin height. -/
def skyCandidates (cfg : Config) (shape : Rect) (bin : SkyBin) : List Plc :=
  (List.range cfg.rotationSteps).flatMap (fun r =>
    let rotation : ℚ := (r : ℚ) * (360 / (cfg.rotationSteps : ℚ))
    (if cfg.allowFlip then [false, true] else [false]).flatMap (fun flip =>
      let width := if flip then shape.height else shape.width
      let height := if flip then shape.width else shape.height
      bin.skyline.enum.filterMap (fun en =>
        if width > en.2.width then none
        else
          let y := find_min_y bin.skyline en.1 width
          if y + height > bin.height then none
          else some ({ x := en.2.x, y := y, width := width, height := height,
                       rotation := rotation } : Plc))))

/-- One step of the `best_score`/`best_placement` tracking loop shared by
both searches. -/
def pickStep (score : Plc → ℚ) (best : Option (Plc × ℚ)) (p : Plc) :
    Option (Plc × ℚ) :=
  match best with
  | none => some (p, score p)
  | some bs => if score p < bs.2 then some (p, score p) else best

/-- The `best_score`/`best_placement` tracking loop shared by both searches
(initial best score is `float('inf')`, so the first candidate always
wins). -/
def pickBestByScore (score : Plc → ℚ) (cands : List Plc) : Option Plc :=
  (cands.foldl (pickStep score) none).map (fun t => t.1)

/-- `SkylineNester.find_best_placement_in_bin` (skyline.py lines 118-147),
the lookahead-free search used while simulating.  (Called only from the
lookahead search, whose wrapper has already ruled out
`rotation_steps = 0`.) -/
def find_best_placement_in_bin (cfg : Config) (shape : Rect) (bin : SkyBin) : Option Plc :=
  pickBestByScore (fun p => calculate_placement_score cfg p bin) (skyCandidates cfg shape bin)

/-- The lookahead simulation of `find_best_placement_with_lookahead`
(skyline.py lines 92-110): greedily place each lookahead shape against the
simulated skyline, adding its score, or a full bin-area penalty when it
does not fit; lookahead placements update only the simulated skyline. -/
def lookaheadScore (cfg : Config) (lookAheadShapes : List (ℕ × Rect))
    (tempBin : SkyBin) (base : ℚ) : ℚ :=
  (lookAheadShapes.foldl (fun (st : SkyBin × ℚ) las =>
    match find_best_placement_in_bin cfg las.2 st.1 with
    | some q => (update_skyline st.1 q, st.2 + calculate_placement_score cfg q st.1)
    | none => (st.1, st.2 + cfg.binWidth * cfg.binHeight)) (tempBin, base)).2

/-- `SkylineNester.find_best_placement_with_lookahead` (skyline.py lines
66-116).  `rotations = 360 / rotation_steps` raises `ZeroDivisionError` for
zero steps; the lookahead simulates on a deep copy of the bin, appending
the tried candidate before updating the simulated skyline. -/
def find_best_placement_with_lookahead (cfg : Config) (shape : Rect) (bin : SkyBin)
    (lookAheadShapes : List (ℕ × Rect)) : Except PyErr (Option Plc) :=
  if cfg.rotationSteps = 0 then throw PyErr.zeroDivision
  else
    pure (pickBestByScore (fun p =>
      lookaheadScore cfg lookAheadShapes
        (update_skyline { bin with placements := bin.placements ++ [p] } p)
        (calculate_placement_score cfg p bin))
      (skyCandidates cfg shape bin))

/-- The `for bin in bins` loop of `SkylineNester.nest` (skyline.py lines
37-46). -/
def tryBinsSky (cfg : Config) (shape : Rect) (idx : ℕ)
    (lookAheadShapes : List (ℕ × Rect)) :
    List SkyBin → Except PyErr (Option (List SkyBin))
  | [] => pure none
  | bin :: rest => do
    let r ← find_best_placement_with_lookahead cfg shape bin lookAheadShapes
    match r with
    | some p =>
      let p2 := { p with shapeIndex := idx }
      pure (some (update_skyline { bin with placements := bin.placements ++ [p2] } p2 :: rest))
    | none => do
      let o ← tryBinsSky cfg shape idx lookAheadShapes rest
      pure (o.map (fun bs => bin :: bs))

/-- The main loop of `SkylineNester.nest` (skyline.py lines 32-63): pop the
next shape, look ahead at the next `look_ahead` pending shapes, place into
the first accepting bin or a fresh one; failures are logged and the shape
skipped (we return those indices). -/
def nestGo (cfg : Config) :
    List (ℕ × Rect) → List SkyBin → List ℕ → Except PyErr (List SkyBin × List ℕ)
  | [], bins, unp => pure (bins, unp)
  | (idx, shape) :: rest, bins, unp => do
    let lookAheadShapes := rest.take cfg.lookAhead
    let r ← tryBinsSky cfg shape idx lookAheadShapes bins
    match r with
    | some bins2 => nestGo cfg rest bins2 unp
    | none => do
      let newBin : SkyBin :=
        { width := cfg.binWidth, height := cfg.binHeight,
          skyline := [⟨0, 0, cfg.binWidth⟩] }
      let rN ← find_best_placement_with_lookahead cfg shape newBin lookAheadShapes
      match rN with
      | some p =>
        let p2 := { p with shapeIndex := idx }
        nestGo cfg rest
          (bins ++ [update_skyline { newBin with placements := newBin.placements ++ [p2] } p2])
          unp
      | none => nestGo cfg rest bins (unp ++ [idx])

/-- `SkylineNester.nest` (skyline.py lines 27-64). -/
def nest (cfg : Config) (shapes : List Rect) : Except PyErr (List SkyBin × List ℕ) :=
  nestGo cfg (sortDescBy (fun t => rectKey cfg.sortMethod t.2) shapes.enum) [] []

/-- Two consecutive skyline nodes are adjacent: the next starts where the
previous ends. -/
def NodeAdj (a b : SkyNode) : Prop := a.x + a.width = b.x

/-- A well-formed skyline is a chain of adjacent nodes. -/
def SkyChain (s : List SkyNode) : Prop := List.Chain' NodeAdj s

/-- All nodes have positive width. -/
def WPos (s : List SkyNode) : Prop := ∀ n ∈ s, 0 < n.width

/-- Placement `p` and node `n` overlap in the x-direction (open spans). -/
def XOverN (p : Plc) (n : SkyNode) : Prop :=
  p.x < n.x + n.width ∧ n.x < p.x + p.width

/-- Node `n` lies on or above every placement it overlaps in x. -/
def NodeDom (P : List Plc) (n : SkyNode) : Prop :=
  ∀ p ∈ P, XOverN p n → p.y + p.height ≤ n.y

/-- The invariant maintained for every bin of the skyline nester. -/
def SkyInv (bin : SkyBin) : Prop :=
  SkyChain bin.skyline ∧ WPos bin.skyline ∧
  (∀ p ∈ bin.placements, 0 < p.width ∧ 0 < p.height) ∧
  (∀ n ∈ bin.skyline, NodeDom bin.placements n) ∧
  bin.placements.Pairwise (fun p q => ¬ OverlapsOpen p q)

end Sky

/-- A default skyline configuration (the class defaults of
`SkylineNester.__init__`) with a 10×10 sheet. -/
def c1SkyCfg : Sky.Config :=
  { binWidth := 10, binHeight := 10, rotationSteps := 4, allowFlip := true,
    sortMethod := .area, strategy := .bestFit, lookAhead := 3 }

namespace Dxf

/-- `math.radians`: degrees to radians. -/
noncomputable def radians (deg : ℝ) : ℝ := deg * Real.pi / 180

/-- `transform_point` (dxf_utils.py lines 204-217): rotate the entity's
local point by the placement's rotation, then translate by the placement's
position. -/
noncomputable def transform_point (point : ℝ × ℝ) (placement : Plc) : ℝ × ℝ :=
  let rotation_rad := radians ((placement.rotation : ℚ) : ℝ)
  let x_rot := point.1 * Real.cos rotation_rad - point.2 * Real.sin rotation_rad
  let y_rot := point.1 * Real.sin rotation_rad + point.2 * Real.cos rotation_rad
  (x_rot + ((placement.x : ℚ) : ℝ), y_rot + ((placement.y : ℚ) : ℝ))

/-- The standard two-dimensional counter-clockwise rotation about the
origin by the angle θ (in radians). -/
noncomputable def rotateCCW (θ : ℝ) (p : ℝ × ℝ) : ℝ × ℝ :=
  (p.1 * Real.cos θ - p.2 * Real.sin θ, p.1 * Real.sin θ + p.2 * Real.cos θ)

/-- Translation by a vector. -/
def translate (v p : ℝ × ℝ) : ℝ × ℝ := (p.1 + v.1, p.2 + v.2)

end Dxf

/-- The configuration of nester.py used for the concrete conservation
witness (defaults except a single rotation step). -/
def c3NpCfg : NesterPy.Config :=
  { binWidth := 10, binHeight := 10, rotationSteps := 1, allowFlip := true,
    sortMethod := .area, strategy := .bottomLeft }

namespace RectN

/-- One rectangle as the external `rectpack` packer returns it (rect.py
lines 43-57 read `rect.rid`, `rect.x`, `rect.y`, `rect.width`,
`rect.height`).  The packer itself is an external library, not code of this
repository; spec §4.5 gives its contract only. -/
structure PackedRect where
  rid : ℕ
  x : ℚ
  y : ℚ
  width : ℚ
  height : ℚ
deriving DecidableEq, Repr

/-- The §4.5 adapter contract for the external packer's output: every
accepted id is one of the `n` added ids, and no id is returned twice. -/
def PackerContract (n : ℕ) (packer : List (List PackedRect)) : Prop :=
  (∀ r ∈ packer.flatMap (fun abin => abin), r.rid < n) ∧
  ((packer.flatMap (fun abin => abin)).map (fun r => r.rid)).Nodup

/-- The bin-building loop of `RectNester.nest` (rect.py lines 38-59): empty
packer bins are skipped, and each packed rect becomes a placement
`(x, y, width, height)` with rotation 0 and `shape_index = rid`. -/
def binsFromPacker (binW binH : ℚ) (packer : List (List PackedRect)) :
    List Gen.GBin :=
  (packer.filter (fun abin => !abin.isEmpty)).map (fun abin =>
    { width := binW, height := binH,
      placements := abin.map (fun r =>
        ({ x := r.x, y := r.y, width := r.width, height := r.height,
           rotation := 0, shapeIndex := r.rid } : Plc)) })

/-- The reported unpacked-index set of `RectNester.nest` (rect.py lines
61-68): Python computes `set(range(len(shapes))) - {p.shape_index for bin
in bins for p in bin.placements}`; here it is the ordered list of range
indices outside the placed set (empty exactly when every shape was packed,
the code's count-match branch where nothing is reported). -/
def unpacked_shapes (n : ℕ) (bins : List Gen.GBin) : List ℕ :=
  (List.range n).filter (fun i => decide (i ∉ NesterPy.placedIdx bins))

end RectN


theorem overlapsB_false_iff (a b : Plc) : overlapsB a b = false ↔ ¬ OverlapsOpen a b := by
  simp [overlapsB, OverlapsOpen]

/-- `OverlapsOpen` is symmetric. -/
theorem overlapsOpen_symm {a b : Plc} (h : OverlapsOpen a b) : OverlapsOpen b a :=
  ⟨h.2.1, h.1, h.2.2.2, h.2.2.1⟩

theorem sortDescBy_perm (key : α → ℚ) (l : List α) : List.Perm (sortDescBy key l) l :=
  List.mergeSort_perm l _

unseal Rat.add Rat.mul Rat.inv Rat.sub Nat.gcd in
/-- C2 (code bug): a full `GeneticNester.nest` run on a 20×20 part with a
10×10 sheet returns a placement `(0, 0, 20, 20)` that escapes its bin: the
new-bin fallback of `create_bins_from_solution` performs no fit check, so
the containment invariant `x ≥ 0 ∧ y ≥ 0 ∧ x+width ≤ bin.width ∧
y+height ≤ bin.height` fails on a placement `nest` returns. -/
theorem c2_genetic_containment_violated :
    ∃ bins tr, Gen.nest oversizeCfg oversizeShapes (fun _ => 0) (fun _ => 0) =
        Except.ok (bins, tr) ∧
      ∃ b ∈ bins, ∃ p ∈ b.placements,
        ¬ (0 ≤ p.x ∧ 0 ≤ p.y ∧ p.x + p.width ≤ b.width ∧ p.y + p.height ≤ b.height) := by
  refine ⟨[{ width := 10, height := 10, placements := [] },
           { width := 10, height := 10,
             placements := [{ x := 0, y := 0, width := 20, height := 20,
                              rotation := 0, shapeIndex := 0 }] }],
    [⟨2, [(0, 0, false)], [[(0, 0, false)]]⟩], by decide,
    { width := 10, height := 10,
      placements := [{ x := 0, y := 0, width := 20, height := 20,
                       rotation := 0, shapeIndex := 0 }] }, by decide,
    { x := 0, y := 0, width := 20, height := 20, rotation := 0, shapeIndex := 0 },
    by decide, by decide⟩

unseal Rat.add Rat.mul Rat.inv Rat.sub Nat.gcd in
/-- C8 (code bug): on the same run the first returned bin holds no placement
at all — `create_bins_from_solution` seeds the bin list with one bin and the
fallback path never uses it — so its utilization is `0 ∉ (0, 1]` (the second
bin's utilization is `4 > 1`, failing the other bound as well). -/
theorem c8_genetic_empty_bin_utilization_zero :
    ∃ bins, Gen.create_bins_from_solution oversizeCfg oversizeShapes oversizeGenome =
        Except.ok bins ∧
      ∃ b ∈ bins, b.placements = [] ∧
      ∃ u ∈ get_bin_utilization bins, ¬ (0 < u ∧ u ≤ 1) := by
  refine ⟨[{ width := 10, height := 10, placements := [] },
           { width := 10, height := 10,
             placements := [{ x := 0, y := 0, width := 20, height := 20,
                              rotation := 0, shapeIndex := 0 }] }], by decide,
    { width := 10, height := 10, placements := [] }, by decide, by decide,
    0, by decide, by decide⟩

unseal Rat.add Rat.mul Rat.inv Rat.sub Nat.gcd in
/-- C4 (code bug): a full `GeneticNester.nest` run on the 20×20 part with a
10×10 sheet does not report a placement failure for the unfittable item; it
returns a placement for it (shape index 0, extents 20×20 exceeding the sheet
in both orientations) inside a freshly opened bin. -/
theorem c4_genetic_places_unfittable_shape :
    ∃ bins tr, Gen.nest oversizeCfg oversizeShapes (fun _ => 0) (fun _ => 0) =
        Except.ok (bins, tr) ∧
      ∃ b ∈ bins, ∃ p ∈ b.placements,
        p.shapeIndex = 0 ∧ oversizeCfg.binWidth < p.width ∧ oversizeCfg.binHeight < p.height := by
  refine ⟨[{ width := 10, height := 10, placements := [] },
           { width := 10, height := 10,
             placements := [{ x := 0, y := 0, width := 20, height := 20,
                              rotation := 0, shapeIndex := 0 }] }],
    [⟨2, [(0, 0, false)], [[(0, 0, false)]]⟩], by decide,
    { width := 10, height := 10,
      placements := [{ x := 0, y := 0, width := 20, height := 20,
                       rotation := 0, shapeIndex := 0 }] }, by decide,
    { x := 0, y := 0, width := 20, height := 20, rotation := 0, shapeIndex := 0 },
    by decide, by decide, by decide, by decide⟩

/-- Changing only `shape_index` does not change the overlap geometry. -/
theorem overlapsOpen_setIndex (p q : Plc) (si : ℕ) :
    OverlapsOpen { p with shapeIndex := si } q ↔ OverlapsOpen p q := Iff.rfl

namespace Gen

theorem find_best_placement_in_bin_valid {w h r : ℚ} {bin : GBin} {p : Plc}
    (hf : find_best_placement_in_bin w h r bin = some p) :
    is_valid_placement bin p = true := List.find?_some hf

/-- A placement accepted by `is_valid_placement` overlaps none of the bin's
existing placements. -/
theorem is_valid_placement_no_overlap {bin : GBin} {p : Plc}
    (hv : is_valid_placement bin p = true) :
    ∀ q ∈ bin.placements, ¬ OverlapsOpen p q := by
  intro q hq
  unfold is_valid_placement at hv
  split at hv
  · exact absurd hv (by simp)
  · have hall := List.all_eq_true.mp hv q hq
    have : overlapsB p q = false := by
      cases hover : overlapsB p q
      · rfl
      · rw [hover] at hall; exact absurd hall (by simp)
    exact (overlapsB_false_iff p q).mp this

theorem placeFirstFit_no_overlap {si : ℕ} {w h r : ℚ} :
    ∀ {bins bins' : List GBin}, PairwiseNoOverlap bins →
      placeFirstFit si w h r bins = some bins' → PairwiseNoOverlap bins' := by
  intro bins
  induction bins with
  | nil => intro bins' _ hf; simp [placeFirstFit] at hf
  | cons bin rest ih =>
    intro bins' hinv hf
    unfold placeFirstFit at hf
    cases hfb : find_best_placement_in_bin w h r bin with
    | some p =>
      rw [hfb] at hf
      simp only [Option.some.injEq] at hf
      subst hf
      intro b hb
      rcases List.mem_cons.mp hb with hb | hb
      · subst hb
        simp only
        rw [List.pairwise_append]
        refine ⟨hinv bin (List.mem_cons_self bin rest), List.pairwise_singleton _ _, ?_⟩
        intro a ha c hc
        rcases List.mem_singleton.mp hc with rfl
        intro hover
        have hvalid := find_best_placement_in_bin_valid hfb
        have hno := is_valid_placement_no_overlap hvalid a ha
        exact hno ((overlapsOpen_setIndex p a si).mp (overlapsOpen_symm hover))
      · exact hinv b (List.mem_cons_of_mem bin hb)
    | none =>
      rw [hfb] at hf
      cases hrest : placeFirstFit si w h r rest with
      | none => rw [hrest] at hf; simp at hf
      | some bs =>
        rw [hrest] at hf
        simp only [Option.map, Option.some.injEq] at hf
        subst hf
        have hrestInv : PairwiseNoOverlap rest := fun b hb => hinv b (List.mem_cons_of_mem bin hb)
        have hbsInv := ih hrestInv hrest
        intro b hb
        rcases List.mem_cons.mp hb with hb | hb
        · subst hb; exact hinv b (List.mem_cons_self b rest)
        · exact hbsInv b hb

theorem decodeStep_no_overlap {cfg : Config} {shapes : List Rect} {gene : Gene}
    {bins bins' : List GBin} (hinv : PairwiseNoOverlap bins)
    (h : decodeStep cfg shapes bins gene = Except.ok bins') : PairwiseNoOverlap bins' := by
  unfold decodeStep at h
  cases hg : shapes.get? gene.1 with
  | none => rw [hg] at h; exact absurd h (by simp [throw, throwThe, MonadExceptOf.throw])
  | some shape =>
    rw [hg] at h
    simp only at h
    cases hp : placeFirstFit gene.1 (if gene.2.2 then shape.height else shape.width)
        (if gene.2.2 then shape.width else shape.height) gene.2.1 bins with
    | some bins2 =>
      rw [hp] at h
      simp only [pure, Except.pure, Except.ok.injEq] at h
      subst h
      exact placeFirstFit_no_overlap hinv hp
    | none =>
      rw [hp] at h
      simp only [pure, Except.pure, Except.ok.injEq] at h
      subst h
      intro b hb
      rcases List.mem_append.mp hb with hb | hb
      · exact hinv b hb
      · rcases List.mem_singleton.mp hb with rfl
        exact List.pairwise_singleton _ _

theorem foldlM_decode_no_overlap {cfg : Config} {shapes : List Rect} :
    ∀ (sol : Genome) {bins0 bins : List GBin}, PairwiseNoOverlap bins0 →
      sol.foldlM (decodeStep cfg shapes) bins0 = Except.ok bins → PairwiseNoOverlap bins := by
  intro sol
  induction sol with
  | nil =>
    intro bins0 bins hinv h
    simp only [List.foldlM_nil, pure, Except.pure, Except.ok.injEq] at h
    subst h; exact hinv
  | cons gene rest ih =>
    intro bins0 bins hinv h
    rw [List.foldlM_cons] at h
    cases hstep : decodeStep cfg shapes bins0 gene with
    | error e => rw [hstep] at h; exact absurd h (by simp [Bind.bind, Except.bind])
    | ok bins1 =>
      rw [hstep] at h
      simp only [Bind.bind, Except.bind] at h
      exact ih (decodeStep_no_overlap hinv hstep) h

/-- Any successful genome decoding yields bins whose placements pairwise do
not overlap. -/
theorem create_bins_from_solution_no_overlap {cfg : Config} {shapes : List Rect}
    {sol : Genome} {bins : List GBin}
    (h : create_bins_from_solution cfg shapes sol = Except.ok bins) :
    PairwiseNoOverlap bins := by
  unfold create_bins_from_solution at h
  refine foldlM_decode_no_overlap sol ?_ h
  intro b hb
  rcases List.mem_singleton.mp hb with rfl
  exact List.Pairwise.nil

/-- What one successful generation step guarantees: the tracked best fitness
never decreases, the new population's head is exactly the tracked best
genome (elitism), and the step appends exactly one log record reflecting
both. -/
theorem generationStep_spec {cfg : Config} {shapes : List Rect} {rq : ℕ → ℚ} {rn : ℕ → ℕ}
    {st st' : LoopState} (h : generationStep cfg shapes rq rn st = Except.ok st') :
    st.bestFitness ≤ st'.bestFitness ∧
    ∃ g, st'.bestSolution = some g ∧ st'.population.head? = some g ∧
      st'.trace = st.trace ++ [⟨st'.bestFitness, g, st'.population⟩] := by
  unfold generationStep at h
  cases hm : st.population.mapM (calculate_fitness cfg shapes) with
  | error e => rw [hm] at h; simp [Bind.bind, Except.bind] at h
  | ok scores =>
    rw [hm] at h
    simp only [Bind.bind, Except.bind] at h
    split at h
    · exact absurd h (by simp [throw, throwThe, MonadExceptOf.throw])
    · rename_i currentBest hmax
      cases hcb : create_bins_from_solution cfg shapes
          (st.population.getD (scores.indexOf currentBest) []) with
      | error e => rw [hcb] at h; simp at h
      | ok cbBins =>
        rw [hcb] at h
        simp only at h
        split at h
        · exact absurd h (by simp [throw, throwThe, MonadExceptOf.throw])
        · rename_i g hg
          cases hbc : buildChildren cfg rq rn st.population scores (cfg.populationSize - 1) st.k with
          | error e => rw [hbc] at h; simp at h
          | ok children =>
            rw [hbc] at h
            simp only [pure, Except.pure, Except.ok.injEq] at h
            subst h
            refine ⟨?_, g, rfl, rfl, rfl⟩
            by_cases hb : (decide (currentBest > st.bestFitness) ||
                (decide (currentBest = st.bestFitness) &&
                 decide ((cbBins.length : WithTop ℕ) < st.bestBinCount))) = true
            · simp only [hb, if_true]
              rcases Bool.or_eq_true_iff.mp hb with hgt | heq
              · exact le_of_lt (of_decide_eq_true hgt)
              · exact le_of_eq (of_decide_eq_true (Bool.and_eq_true_iff.mp heq).1).symm
            · simp only [Bool.not_eq_true] at hb
              simp only [hb, if_false]
              exact le_rfl

theorem generationStep_traceInv {cfg : Config} {shapes : List Rect} {rq : ℕ → ℚ} {rn : ℕ → ℕ}
    {st st' : LoopState} (h : generationStep cfg shapes rq rn st = Except.ok st')
    (hi : TraceInv st) : TraceInv st' := by
  obtain ⟨hle, g, hbs, hhead, htrace⟩ := generationStep_spec h
  obtain ⟨hchain, hpop, hlast⟩ := hi
  refine ⟨?_, ?_, ?_⟩
  · rw [htrace]
    rw [List.chain'_append]
    refine ⟨hchain, List.chain'_singleton _, ?_⟩
    intro x hx y hy
    simp only [List.head?_cons, Option.mem_def, Option.some.injEq] at hy
    subst hy
    exact le_trans (hlast x hx) hle
  · intro e he
    rw [htrace] at he
    rcases List.mem_append.mp he with he | he
    · exact hpop e he
    · rcases List.mem_singleton.mp he with rfl
      exact hhead
  · intro e he
    rw [htrace] at he
    simp only [List.getLast?_append, List.getLast?_singleton, Option.or_some,
      Option.mem_def, Option.some.injEq] at he
    subst he
    exact le_rfl

theorem foldlM_generation_traceInv {cfg : Config} {shapes : List Rect}
    {rq : ℕ → ℚ} {rn : ℕ → ℕ} :
    ∀ (l : List ℕ) {st st' : LoopState},
      l.foldlM (fun st _ => generationStep cfg shapes rq rn st) st = Except.ok st' →
      TraceInv st → TraceInv st' := by
  intro l
  induction l with
  | nil =>
    intro st st' h hi
    simp only [List.foldlM_nil, pure, Except.pure, Except.ok.injEq] at h
    subst h; exact hi
  | cons a rest ih =>
    intro st st' h hi
    rw [List.foldlM_cons] at h
    cases hstep : generationStep cfg shapes rq rn st with
    | error e => rw [hstep] at h; simp [Bind.bind, Except.bind] at h
    | ok st1 =>
      rw [hstep] at h
      simp only [Bind.bind, Except.bind] at h
      exact ih h (generationStep_traceInv hstep hi)

/-- Decomposition of a successful `nest` run: the generation loop succeeded,
ended with some best genome, the returned bins decode that genome and the
returned log is the loop's log. -/
theorem nest_ok_parts {cfg : Config} {shapes : List Rect} {rq : ℕ → ℚ} {rn : ℕ → ℕ}
    {bins : List GBin} {tr : List TraceEntry}
    (h : nest cfg shapes rq rn = Except.ok (bins, tr)) :
    ∃ stF g, (List.range cfg.generations).foldlM
        (fun st _ => generationStep cfg shapes rq rn st)
        ({ population := initialize_population cfg shapes.length, bestSolution := none,
           bestFitness := 0, bestBinCount := ⊤, k := 0, trace := [] } : LoopState) =
        Except.ok stF ∧
      stF.bestSolution = some g ∧
      create_bins_from_solution cfg shapes g = Except.ok bins ∧ tr = stF.trace := by
  unfold nest at h
  simp only [Bind.bind, Except.bind] at h
  cases hfold : (List.range cfg.generations).foldlM
      (fun st _ => generationStep cfg shapes rq rn st)
      ({ population := initialize_population cfg shapes.length, bestSolution := none,
         bestFitness := 0, bestBinCount := ⊤, k := 0, trace := [] } : LoopState) with
  | error e => rw [hfold] at h; simp at h
  | ok stF =>
    rw [hfold] at h
    simp only at h
    split at h
    · exact absurd h (by simp [throw, throwThe, MonadExceptOf.throw])
    · rename_i g hg
      cases hcb : create_bins_from_solution cfg shapes g with
      | error e => rw [hcb] at h; simp at h
      | ok bins2 =>
        rw [hcb] at h
        simp only [pure, Except.pure, Except.ok.injEq, Prod.mk.injEq] at h
        exact ⟨stF, g, rfl, hg, by rw [hcb, h.1], h.2.symm⟩

end Gen

namespace SimpleN

/-- Any `some` result of the candidate loop satisfies `P` provided all
candidates and the incoming accumulator do. -/
theorem simple_fbpLoop_invariant (cfg : Config) (space : Plc) (P : Plc → Prop) :
    ∀ (cands : List Plc) (best : Option Plc) (p : Plc),
      (∀ c ∈ cands, P c) → (∀ b, best = some b → P b) →
      fbpLoop cfg space cands best = Except.ok (some p) → P p := by
  intro cands
  induction cands with
  | nil =>
    intro best p _ hb h
    simp only [fbpLoop, pure, Except.pure, Except.ok.injEq] at h
    exact hb p h
  | cons c rest ih =>
    intro best p hc hb h
    unfold fbpLoop at h
    cases hv : isValidPlacementOnSpace space c with
    | error e => rw [hv] at h; simp [Bind.bind, Except.bind] at h
    | ok v =>
      rw [hv] at h
      simp only [Bind.bind, Except.bind] at h
      have hcrest : ∀ x ∈ rest, P x := fun x hx => hc x (List.mem_cons_of_mem c hx)
      cases v with
      | false => exact ih best p hcrest hb h
      | true =>
        simp only [if_true] at h
        by_cases hbet : is_better_placement cfg c best = true
        · rw [hbet] at h
          simp only [if_true] at h
          by_cases hstrat : cfg.strategy = Strategy.bottomLeft
          · rw [if_pos hstrat] at h
            simp only [pure, Except.pure, Except.ok.injEq, Option.some.injEq] at h
            subst h
            exact hc c (List.mem_cons_self c rest)
          · rw [if_neg hstrat] at h
            refine ih (some c) p hcrest ?_ h
            intro b hbeq
            cases hbeq
            exact hc c (List.mem_cons_self c rest)
        · simp only [Bool.not_eq_true] at hbet
          rw [hbet] at h
          simp only [Bool.false_eq_true, if_false] at h
          exact ih best p hcrest hb h

/-- Any `some` result of the space loop passed `is_valid_placement` against
the actual bin. -/
theorem simple_fbpInBinLoop_valid (cfg : Config) (bin : SBin) (shape : Rect) :
    ∀ (spaces : List Plc) (best : Option Plc) (p : Plc),
      (∀ b, best = some b → is_valid_placement bin b = true) →
      fbpInBinLoop cfg bin shape spaces best = Except.ok (some p) →
      is_valid_placement bin p = true := by
  intro spaces
  induction spaces with
  | nil =>
    intro best p hb h
    simp only [fbpInBinLoop, pure, Except.pure, Except.ok.injEq] at h
    exact hb p h
  | cons space rest ih =>
    intro best p hb h
    unfold fbpInBinLoop at h
    cases hf : find_best_placement cfg shape space with
    | error e => rw [hf] at h; simp [Bind.bind, Except.bind] at h
    | ok r =>
      rw [hf] at h
      simp only [Bind.bind, Except.bind] at h
      cases r with
      | none => exact ih best p hb h
      | some q =>
        simp only at h
        by_cases hval : is_valid_placement bin q = true
        · rw [hval] at h
          simp only [if_true] at h
          by_cases hbet : is_better_placement cfg q best = true
          · rw [hbet] at h
            simp only [if_true] at h
            refine ih (some q) p ?_ h
            intro b hbeq
            cases hbeq
            exact hval
          · simp only [Bool.not_eq_true] at hbet
            rw [hbet] at h
            simp only [Bool.false_eq_true, if_false] at h
            exact ih best p hb h
        · simp only [Bool.not_eq_true] at hval
          rw [hval] at h
          simp only [Bool.false_eq_true, if_false] at h
          exact ih best p hb h

/-- `find_best_placement_in_bin` only returns placements accepted by
`is_valid_placement`. -/
theorem simple_find_best_valid {cfg : Config} {bin : SBin} {shape : Rect} {p : Plc}
    (h : find_best_placement_in_bin cfg shape bin = Except.ok (some p)) :
    is_valid_placement bin p = true :=
  simple_fbpInBinLoop_valid cfg bin shape bin.spaces none p (by intro b hb; cases hb) h

/-- A placement accepted by the simple nester's `is_valid_placement`
overlaps none of the bin's existing placements. -/
theorem simple_valid_no_overlap {bin : SBin} {p : Plc}
    (hv : is_valid_placement bin p = true) :
    ∀ q ∈ bin.placements, ¬ OverlapsOpen p q := by
  intro q hq
  unfold is_valid_placement at hv
  split at hv
  · exact absurd hv (by simp)
  · have hall := List.all_eq_true.mp hv q hq
    have : overlapsB p q = false := by
      cases hover : overlapsB p q
      · rfl
      · rw [hover] at hall; exact absurd hall (by simp)
    exact (overlapsB_false_iff p q).mp this

theorem simple_update_spaces_placements (bin : SBin) (p : Plc) :
    (update_spaces bin p).placements = bin.placements := rfl

theorem simple_tryBins_no_overlap {cfg : Config} {shape : Rect} {idx : ℕ} :
    ∀ {bins bins2 : List SBin}, SBinsNoOverlap bins →
      tryBins cfg shape idx bins = Except.ok (some bins2) → SBinsNoOverlap bins2 := by
  intro bins
  induction bins with
  | nil =>
    intro bins2 _ h
    simp [tryBins, pure, Except.pure] at h
  | cons bin rest ih =>
    intro bins2 hinv h
    unfold tryBins at h
    cases hf : find_best_placement_in_bin cfg shape bin with
    | error e => rw [hf] at h; simp [Bind.bind, Except.bind] at h
    | ok r =>
      rw [hf] at h
      simp only [Bind.bind, Except.bind] at h
      cases r with
      | some p =>
        simp only [pure, Except.pure, Except.ok.injEq, Option.some.injEq] at h
        subst h
        intro b hb
        rcases List.mem_cons.mp hb with hb | hb
        · subst hb
          rw [simple_update_spaces_placements]
          simp only
          rw [List.pairwise_append]
          refine ⟨hinv bin (List.mem_cons_self bin rest), List.pairwise_singleton _ _, ?_⟩
          intro a ha c hc
          rcases List.mem_singleton.mp hc with rfl
          intro hover
          have hno := simple_valid_no_overlap (simple_find_best_valid hf) a ha
          exact hno ((overlapsOpen_setIndex p a idx).mp (overlapsOpen_symm hover))
        · exact hinv b (List.mem_cons_of_mem bin hb)
      | none =>
        cases hrest : tryBins cfg shape idx rest with
        | error e => rw [hrest] at h; simp [Bind.bind, Except.bind] at h
        | ok o =>
          rw [hrest] at h
          simp only [pure, Except.pure, Except.ok.injEq] at h
          cases o with
          | none => simp at h
          | some bs =>
            simp only [Option.map, Option.some.injEq] at h
            subst h
            have hrestInv : SBinsNoOverlap rest :=
              fun b hb => hinv b (List.mem_cons_of_mem bin hb)
            have hbsInv := ih hrestInv hrest
            intro b hb
            rcases List.mem_cons.mp hb with hb | hb
            · subst hb; exact hinv b (List.mem_cons_self b rest)
            · exact hbsInv b hb

theorem simple_nestGo_no_overlap {cfg : Config} :
    ∀ (items : List (ℕ × Rect)) {bins : List SBin} {unp : List ℕ}
      {bins' : List SBin} {unp' : List ℕ}, SBinsNoOverlap bins →
      nestGo cfg items bins unp = Except.ok (bins', unp') → SBinsNoOverlap bins' := by
  intro items
  induction items with
  | nil =>
    intro bins unp bins' unp' hinv h
    simp only [nestGo, pure, Except.pure, Except.ok.injEq, Prod.mk.injEq] at h
    rw [← h.1]; exact hinv
  | cons item rest ih =>
    intro bins unp bins' unp' hinv h
    obtain ⟨idx, shape⟩ := item
    unfold nestGo at h
    cases htry : tryBins cfg shape idx bins with
    | error e => rw [htry] at h; simp [Bind.bind, Except.bind] at h
    | ok r =>
      rw [htry] at h
      simp only [Bind.bind, Except.bind] at h
      cases r with
      | some bins2 => exact ih (simple_tryBins_no_overlap hinv htry) h
      | none =>
        simp only at h
        cases hnew : find_best_placement_in_bin cfg shape
            ({ width := cfg.binWidth, height := cfg.binHeight,
               spaces := [{ x := 0, y := 0, width := cfg.binWidth, height := cfg.binHeight,
                            rotation := 0 }] } : SBin) with
        | error e => rw [hnew] at h; simp [Bind.bind, Except.bind] at h
        | ok rNew =>
          rw [hnew] at h
          simp only [Bind.bind, Except.bind] at h
          cases rNew with
          | some p =>
            refine ih ?_ h
            intro b hb
            rcases List.mem_append.mp hb with hb | hb
            · exact hinv b hb
            · rcases List.mem_singleton.mp hb with rfl
              rw [simple_update_spaces_placements]
              simp only [List.nil_append]
              exact List.pairwise_singleton _ _
          | none => exact ih hinv h

theorem simple_placedIndices_append (a b : List SBin) :
    placedIndices (a ++ b) = placedIndices a ++ placedIndices b := by
  simp [placedIndices]

theorem simple_tryBins_placed {cfg : Config} {shape : Rect} {idx : ℕ} :
    ∀ {bins bins2 : List SBin},
      tryBins cfg shape idx bins = Except.ok (some bins2) →
      List.Perm (placedIndices bins2) (idx :: placedIndices bins) := by
  intro bins
  induction bins with
  | nil =>
    intro bins2 h
    simp [tryBins, pure, Except.pure] at h
  | cons bin rest ih =>
    intro bins2 h
    unfold tryBins at h
    cases hf : find_best_placement_in_bin cfg shape bin with
    | error e => rw [hf] at h; simp [Bind.bind, Except.bind] at h
    | ok r =>
      rw [hf] at h
      simp only [Bind.bind, Except.bind] at h
      cases r with
      | some p =>
        simp only [pure, Except.pure, Except.ok.injEq, Option.some.injEq] at h
        subst h
        simp only [placedIndices, List.flatMap_cons, simple_update_spaces_placements,
          List.map_append, List.map_cons, List.map_nil]
        rw [List.append_assoc]
        exact List.perm_middle
      | none =>
        cases hrest : tryBins cfg shape idx rest with
        | error e => rw [hrest] at h; simp [Bind.bind, Except.bind] at h
        | ok o =>
          rw [hrest] at h
          simp only [pure, Except.pure, Except.ok.injEq] at h
          cases o with
          | none => simp at h
          | some bs =>
            simp only [Option.map, Option.some.injEq] at h
            subst h
            have hperm := ih hrest
            simp only [placedIndices, List.flatMap_cons, List.map_append] at hperm ⊢
            exact (List.Perm.append_left _ hperm).trans List.perm_middle

theorem simple_nestGo_conserv {cfg : Config} :
    ∀ (items : List (ℕ × Rect)) {bins : List SBin} {unp : List ℕ}
      {bins' : List SBin} {unp' : List ℕ},
      nestGo cfg items bins unp = Except.ok (bins', unp') →
      List.Perm (placedIndices bins' ++ unp')
        ((placedIndices bins ++ unp) ++ items.map Prod.fst) := by
  intro items
  induction items with
  | nil =>
    intro bins unp bins' unp' h
    simp only [nestGo, pure, Except.pure, Except.ok.injEq, Prod.mk.injEq] at h
    rw [← h.1, ← h.2]
    simp
  | cons item rest ih =>
    intro bins unp bins' unp' h
    obtain ⟨idx, shape⟩ := item
    unfold nestGo at h
    cases htry : tryBins cfg shape idx bins with
    | error e => rw [htry] at h; simp [Bind.bind, Except.bind] at h
    | ok r =>
      rw [htry] at h
      simp only [Bind.bind, Except.bind] at h
      cases r with
      | some bins2 =>
        have hIH := ih h
        have hpl := simple_tryBins_placed htry
        refine hIH.trans ?_
        refine (((hpl.append_right unp).append_right (rest.map Prod.fst)).trans ?_)
        exact List.perm_middle.symm
      | none =>
        simp only at h
        cases hnew : find_best_placement_in_bin cfg shape
            ({ width := cfg.binWidth, height := cfg.binHeight,
               spaces := [{ x := 0, y := 0, width := cfg.binWidth, height := cfg.binHeight,
                            rotation := 0 }] } : SBin) with
        | error e => rw [hnew] at h; simp [Bind.bind, Except.bind] at h
        | ok rNew =>
          rw [hnew] at h
          simp only [Bind.bind, Except.bind] at h
          cases rNew with
          | some p =>
            have hIH := ih h
            rw [simple_placedIndices_append] at hIH
            refine hIH.trans ?_
            have hstep : List.Perm
                ((placedIndices bins ++ [idx]) ++ unp)
                (idx :: (placedIndices bins ++ unp)) := by
              rw [List.append_assoc]
              exact List.perm_middle
            refine ((hstep.append_right (rest.map Prod.fst)).trans ?_)
            exact List.perm_middle.symm
          | none =>
            have hIH := ih h
            refine hIH.trans ?_
            rw [List.append_assoc, List.append_assoc, List.append_assoc]
            exact List.Perm.refl _

end SimpleN

namespace NesterPy

theorem nester_placedIdx_cons (b : Gen.GBin) (bs : List Gen.GBin) :
    placedIdx (b :: bs) = b.placements.map (fun p => p.shapeIndex) ++ placedIdx bs := by
  simp [placedIdx]

theorem nester_addToBin_nil_flat (cfg : Config) :
    ∀ (n : ℕ) (p : Plc), placedIdx (addToBin cfg [] n p) = [p.shapeIndex] := by
  intro n
  induction n with
  | zero => intro p; rfl
  | succ n ih =>
    intro p
    show placedIdx (({ width := cfg.binWidth, height := cfg.binHeight } : Gen.GBin) ::
      addToBin cfg [] n p) = _
    rw [nester_placedIdx_cons, ih]
    rfl

theorem nester_addToBin_flat (cfg : Config) :
    ∀ (bins : List Gen.GBin) (n : ℕ) (p : Plc),
      List.Perm (placedIdx (addToBin cfg bins n p)) (p.shapeIndex :: placedIdx bins) := by
  intro bins
  induction bins with
  | nil =>
    intro n p
    rw [nester_addToBin_nil_flat]
    exact List.Perm.refl _
  | cons b bs ih =>
    intro n p
    cases n with
    | zero =>
      show List.Perm (placedIdx ({ b with placements := b.placements ++ [p] } :: bs)) _
      rw [nester_placedIdx_cons, nester_placedIdx_cons]
      simp only [List.map_append, List.map_cons, List.map_nil]
      rw [List.append_assoc]
      exact List.perm_middle
    | succ n =>
      show List.Perm (placedIdx (b :: addToBin cfg bs n p)) _
      rw [nester_placedIdx_cons, nester_placedIdx_cons]
      exact (List.Perm.append_left _ (ih n p)).trans List.perm_middle

theorem nester_create_bins_flat (cfg : Config) :
    ∀ (placements : List Plc) (bins0 : List Gen.GBin),
      List.Perm (placedIdx (placements.foldl (fun bins p =>
          addToBin cfg bins (pyFloorQ (p.x / cfg.binWidth)).toNat
            { p with x := pyMod p.x cfg.binWidth }) bins0))
        (placedIdx bins0 ++ placements.map (fun p => p.shapeIndex)) := by
  intro placements
  induction placements with
  | nil => intro bins0; simp
  | cons p rest ih =>
    intro bins0
    rw [List.foldl_cons]
    refine (ih _).trans ?_
    have h1 := nester_addToBin_flat cfg bins0 (pyFloorQ (p.x / cfg.binWidth)).toNat
      { p with x := pyMod p.x cfg.binWidth }
    refine (h1.append_right _).trans ?_
    show List.Perm (p.shapeIndex :: placedIdx bins0 ++ _) _
    exact List.perm_middle.symm

theorem nester_conserv_create_bins (cfg : Config) (placements : List Plc) :
    List.Perm (placedIdx (create_bins cfg placements))
      (placements.map (fun p => p.shapeIndex)) := by
  have h := nester_create_bins_flat cfg placements []
  simpa [create_bins, placedIdx] using h

theorem nester_nestGo_conserv {cfg : Config} :
    ∀ (items : List (ℕ × Rect)) {placements : List Plc} {spaces : List (List Plc)}
      {unplaced : List ℕ} {pl : List Plc} {sp : List (List Plc)} {unp : List ℕ},
      nestGo cfg items placements spaces unplaced = Except.ok (pl, sp, unp) →
      List.Perm (pl.map (fun p => p.shapeIndex) ++ unp)
        ((placements.map (fun p => p.shapeIndex) ++ unplaced) ++ items.map Prod.fst) := by
  intro items
  induction items with
  | nil =>
    intro placements spaces unplaced pl sp unp h
    simp only [nestGo, pure, Except.pure, Except.ok.injEq, Prod.mk.injEq] at h
    rw [← h.1, ← h.2.2]
    simp
  | cons item rest ih =>
    intro placements spaces unplaced pl sp unp h
    obtain ⟨shapeIndex, shape⟩ := item
    unfold nestGo at h
    cases hscan : scanBest cfg shape spaces with
    | error e => rw [hscan] at h; simp [Bind.bind, Except.bind] at h
    | ok b =>
      rw [hscan] at h
      simp only [Bind.bind, Except.bind] at h
      cases b with
      | some t =>
        obtain ⟨p, spaceIdx, binIdx⟩ := t
        simp only at h
        cases hupd : update_spaces (spaces.getD binIdx []) spaceIdx
            { p with shapeIndex := shapeIndex, x := p.x + (binIdx : ℚ) * cfg.binWidth } with
        | error e => rw [hupd] at h; simp [Bind.bind, Except.bind] at h
        | ok ns =>
          rw [hupd] at h
          simp only [Bind.bind, Except.bind] at h
          refine (ih h).trans ?_
          simp only [List.map_append, List.map_cons, List.map_nil]
          have hstep : List.Perm
              ((placements.map (fun p => p.shapeIndex) ++ [shapeIndex]) ++ unplaced)
              (shapeIndex :: (placements.map (fun p => p.shapeIndex) ++ unplaced)) := by
            rw [List.append_assoc]
            exact List.perm_middle
          exact (hstep.append_right _).trans List.perm_middle.symm
      | none =>
        simp only at h
        cases hfind : find_best_placement cfg shape (freshSpace cfg) with
        | error e => rw [hfind] at h; simp [Bind.bind, Except.bind] at h
        | ok r =>
          rw [hfind] at h
          simp only [Bind.bind, Except.bind] at h
          cases r with
          | some p =>
            simp only at h
            cases hupd : update_spaces ((spaces ++ [[freshSpace cfg]]).getD spaces.length []) 0
                { p with shapeIndex := shapeIndex,
                         x := p.x + (spaces.length : ℚ) * cfg.binWidth } with
            | error e => rw [hupd] at h; simp [Bind.bind, Except.bind] at h
            | ok ns =>
              rw [hupd] at h
              simp only [Bind.bind, Except.bind] at h
              refine (ih h).trans ?_
              simp only [List.map_append, List.map_cons, List.map_nil]
              have hstep : List.Perm
                  ((placements.map (fun p => p.shapeIndex) ++ [shapeIndex]) ++ unplaced)
                  (shapeIndex :: (placements.map (fun p => p.shapeIndex) ++ unplaced)) := by
                rw [List.append_assoc]
                exact List.perm_middle
              exact (hstep.append_right _).trans List.perm_middle.symm
          | none =>
            refine (ih h).trans ?_
            rw [List.append_assoc, List.append_assoc, List.append_assoc]
            exact List.Perm.refl _

end NesterPy

theorem sortDescBy_length (key : α → ℚ) (l : List α) :
    (sortDescBy key l).length = l.length := List.length_mergeSort l

namespace RectN

/-- Skipping the empty packer bins loses no placed id: the flattened
placement ids of `binsFromPacker` are exactly the packer's rect ids in
order. -/
theorem rect_placedIdx (binW binH : ℚ) :
    ∀ (packer : List (List PackedRect)),
      NesterPy.placedIdx (binsFromPacker binW binH packer) =
        (packer.flatMap (fun abin => abin)).map (fun r => r.rid) := by
  intro packer
  induction packer with
  | nil => rfl
  | cons abin rest ih =>
    by_cases h : abin.isEmpty = true
    · have he : abin = [] := List.isEmpty_iff.mp h
      subst he
      simpa [binsFromPacker, NesterPy.placedIdx, List.filter_cons] using ih
    · have h' : abin.isEmpty = false := Bool.not_eq_true _ ▸ h
      simp only [binsFromPacker, NesterPy.placedIdx, List.filter_cons, h',
        Bool.not_false, if_true, List.map_cons, List.flatMap_cons,
        List.map_append, List.map_map] at ih ⊢
      rw [ih]
      rfl

/-- A duplicate-free list of indices below `n`, followed by the rest of the
range, is a permutation of the range. -/
theorem rect_partition_perm {n : ℕ} {l : List ℕ} (hnd : l.Nodup)
    (hsub : ∀ i ∈ l, i < n) :
    List.Perm (l ++ (List.range n).filter (fun i => decide (i ∉ l)))
      (List.range n) := by
  have hfp := List.filter_append_perm (fun i => decide (i ∈ l)) (List.range n)
  have h2 : List.Perm l ((List.range n).filter (fun i => decide (i ∈ l))) := by
    rw [List.perm_ext_iff_of_nodup hnd (List.Nodup.filter _ (List.nodup_range n))]
    intro a
    simp only [List.mem_filter, List.mem_range, decide_eq_true_eq]
    exact ⟨fun ha => ⟨hsub a ha, ha⟩, fun h => h.2⟩
  have hstep : List.Perm (l ++ (List.range n).filter (fun i => decide (i ∉ l)))
      ((List.range n).filter (fun i => decide (i ∈ l)) ++
        (List.range n).filter (fun i => decide (i ∉ l))) :=
    List.Perm.append_right _ h2
  refine hstep.trans ?_
  have heq : (fun i => decide (i ∉ l)) = (fun i => !decide (i ∈ l)) := by
    funext i
    simp [decide_not]
  rw [heq]
  exact hfp

end RectN

/-- C3: conservation of parts.  For nester.py's `SimpleNester.nest` the
`shape_index` values are positions in the sorted order (it enumerates after
sorting); for nesters/simple.py they are the original input indices.  For
`RectNester.nest` the packing itself is the external `rectpack` library
(spec §4.5, contract only): under that contract — each accepted id returned
at most once, ids drawn from the input — the adapter loop of rect.py and
its reported unpacked set conserve the indices.  In every case the index
set
`{0, …, n−1}` exactly once between the returned placements and the reported
unplaced set. -/
theorem c3_conservation :
    (∀ (cfg : NesterPy.Config) (shapes : List Rect) (bins : List Gen.GBin) (unp : List ℕ),
        NesterPy.nest cfg shapes = Except.ok (bins, unp) →
        List.Perm (NesterPy.placedIdx bins ++ unp) (List.range shapes.length)) ∧
    (∀ (cfg : SimpleN.Config) (shapes : List Rect) (bins : List SimpleN.SBin) (unp : List ℕ),
        SimpleN.nest cfg shapes = Except.ok (bins, unp) →
        List.Perm (SimpleN.placedIndices bins ++ unp) (List.range shapes.length)) ∧
    (∀ (n : ℕ) (binW binH : ℚ) (packer : List (List RectN.PackedRect)),
        RectN.PackerContract n packer →
        List.Perm (NesterPy.placedIdx (RectN.binsFromPacker binW binH packer) ++
          RectN.unpacked_shapes n (RectN.binsFromPacker binW binH packer))
          (List.range n)) := by
  refine ⟨?_, ?_, ?_⟩
  · intro cfg shapes bins unp h
    unfold NesterPy.nest at h
    simp only [Bind.bind, Except.bind] at h
    cases hgo : NesterPy.nestGo cfg ((NesterPy.sort_shapes cfg shapes).enum) []
        [[NesterPy.freshSpace cfg]] [] with
    | error e => rw [hgo] at h; simp at h
    | ok result =>
      rw [hgo] at h
      simp only [pure, Except.pure, Except.ok.injEq, Prod.mk.injEq] at h
      obtain ⟨pl, sp, unpl⟩ := result
      obtain ⟨hbins, hunp⟩ := h
      have hcons := NesterPy.nester_nestGo_conserv _ hgo
      simp only [List.map_nil, List.nil_append, List.enum_map_fst] at hcons
      have hlen : (NesterPy.sort_shapes cfg shapes).length = shapes.length :=
        sortDescBy_length _ _
      rw [hlen] at hcons
      have hcb := NesterPy.nester_conserv_create_bins cfg pl
      subst hbins
      subst hunp
      exact ((hcb.append_right unpl).trans hcons)
  · intro cfg shapes bins unp h
    unfold SimpleN.nest at h
    have hcons := SimpleN.simple_nestGo_conserv _ h
    simp only [SimpleN.placedIndices, List.flatMap_nil, List.map_nil, List.nil_append] at hcons
    refine hcons.trans ?_
    have hperm : List.Perm (sortDescBy (fun t => rectKey cfg.sortMethod t.2) shapes.enum)
        shapes.enum := sortDescBy_perm _ _
    have := hperm.map Prod.fst
    rw [List.enum_map_fst] at this
    exact this
  · intro n binW binH packer hc
    obtain ⟨hlt, hnd⟩ := hc
    unfold RectN.unpacked_shapes
    rw [RectN.rect_placedIdx]
    refine RectN.rect_partition_perm hnd ?_
    intro i hi
    obtain ⟨r, hr, hrid⟩ := List.mem_map.mp hi
    exact hrid ▸ hlt r hr

/-- C6 (amended): nester.py's `update_spaces` computes exactly the
spec-described guillotine split and re-sort, for every valid pop index. -/
theorem c6_guillotine_split_refines (spaces : List Plc) (usedIdx : ℕ) (placement : Plc)
    (hidx : usedIdx < spaces.length) :
    NesterPy.update_spaces spaces usedIdx placement =
      specGuillotineUpdate spaces usedIdx placement := by
  unfold NesterPy.update_spaces specGuillotineUpdate
  cases hg : spaces.get? usedIdx with
  | none =>
    exact absurd (List.get?_eq_none.mp hg) (not_le.mpr hidx)
  | some used =>
    simp only [add_lt_add_iff_left]

unseal List.merge List.mergeSort Rat.add Rat.mul Rat.inv Rat.sub Nat.gcd in
/-- C6 (counterexample): the guillotine packer of nesters/simple.py does
*not* perform the claim's split.  Placing 4×4 at the corner of the single
10×10 free space, the code keeps a full-height right space `(4,0,6,10)` and
a full-width top space `(0,4,10,6)` sorted by `(y,x)` only, while the
claimed split yields `(4,0,6,4)` and `(0,4,4,6)`. -/
theorem c6_counterexample :
    (SimpleN.update_spaces
        ({ width := 10, height := 10, placements := [],
           spaces := [⟨0, 0, 10, 10, 0, 0⟩] } : SimpleN.SBin)
        ⟨0, 0, 4, 4, 0, 0⟩).spaces = [⟨4, 0, 6, 10, 0, 0⟩, ⟨0, 4, 10, 6, 0, 0⟩] ∧
    specGuillotineUpdate [⟨0, 0, 10, 10, 0, 0⟩] 0 ⟨0, 0, 4, 4, 0, 0⟩ =
      Except.ok [⟨4, 0, 6, 4, 0, 0⟩, ⟨0, 4, 4, 6, 0, 0⟩] ∧
    ([⟨4, 0, 6, 10, 0, 0⟩, ⟨0, 4, 10, 6, 0, 0⟩] : List Plc) ≠
      [⟨4, 0, 6, 4, 0, 0⟩, ⟨0, 4, 4, 6, 0, 0⟩] := by
  refine ⟨by decide, by decide, by decide⟩

unseal List.merge List.mergeSort Rat.add Rat.mul Rat.inv Rat.sub Nat.gcd in
/-- C5 (counterexample): the invalid `rotation_steps = 0` configuration is
*not* rejected before packing — the constructor accepts it and the error
(`ZeroDivisionError`) only surfaces inside `nest`; and invalid configuration
is *not* the only fatal condition — with a fully valid configuration the
simple nester still aborts `nest` with an `AttributeError` (its placement
validity check dereferences `.placements` on a free-space `Placement`). -/
theorem c5_counterexample :
    SimpleN.nest zeroStepCfg [⟨4, 4⟩] = Except.error PyErr.zeroDivision ∧
    SimpleN.nest validSimpleCfg [⟨4, 4⟩] = Except.error PyErr.attributeMissing := by
  refine ⟨by decide, by decide⟩

/-- C5 (amended): no validation happens up front; with `rotation_steps = 0`
every `nest` call on a nonempty input aborts with the division error raised
inside the nesting core, after packing has begun. -/
theorem c5_zero_steps_fails_inside_nest (cfg : SimpleN.Config)
    (hsteps : cfg.rotationSteps = 0) (shapes : List Rect) (hne : shapes ≠ []) :
    SimpleN.nest cfg shapes = Except.error PyErr.zeroDivision := by
  unfold SimpleN.nest
  cases hs : sortDescBy (fun t => rectKey cfg.sortMethod t.2) shapes.enum with
  | nil =>
    have := sortDescBy_length (fun t : ℕ × Rect => rectKey cfg.sortMethod t.2) shapes.enum
    rw [hs] at this
    simp only [List.length_nil, List.enum_length] at this
    exact absurd (List.length_eq_zero.mp this.symm) hne
  | cons hd tl =>
    obtain ⟨idx, shape⟩ := hd
    unfold SimpleN.nestGo
    simp only [SimpleN.tryBins, SimpleN.find_best_placement_in_bin, SimpleN.fbpInBinLoop,
      SimpleN.find_best_placement, hsteps, Bind.bind, Except.bind, pure, Except.pure,
      throw, throwThe, MonadExceptOf.throw, if_pos]

/-- Every candidate the simple nester enumerates lies on the integer grid:
its coordinates come from Python `range` over `int()`-truncated bounds. -/
theorem simple_candidates_on_grid (cfg : SimpleN.Config) (shape : Rect) (space : Plc)
    (p : Plc) (hp : p ∈ SimpleN.orientCandidates cfg shape space) :
    (∃ i : ℤ, p.x = (i : ℚ)) ∧ ∃ j : ℤ, p.y = (j : ℚ) := by
  simp only [SimpleN.orientCandidates, List.mem_flatMap] at hp
  obtain ⟨r, -, hp⟩ := hp
  obtain ⟨flip, -, hp⟩ := hp
  by_cases hc : ((if flip then shape.height else shape.width) ≤ space.width ∧
      (if flip then shape.width else shape.height) ≤ space.height)
  · rw [if_pos hc] at hp
    obtain ⟨x, -, hp2⟩ := List.mem_flatMap.mp hp
    obtain ⟨y, -, hpeq⟩ := List.mem_map.mp hp2
    subst hpeq
    exact ⟨⟨x, rfl⟩, ⟨y, rfl⟩⟩
  · rw [if_neg hc] at hp
    exact absurd hp (List.not_mem_nil p)

/-- C10: candidate positions are only ever generated on the integer grid.
For `SimpleNester.find_best_placement` every enumerated candidate has
integer `x` and `y` (so in particular anything it could return does); for
`GeneticNester.find_best_placement_in_bin` every returned placement has
integer `x` and `y`. -/
theorem c10_integer_grid :
    (∀ (cfg : SimpleN.Config) (shape : Rect) (space : Plc) (p : Plc),
        p ∈ SimpleN.orientCandidates cfg shape space →
        (∃ i : ℤ, p.x = (i : ℚ)) ∧ ∃ j : ℤ, p.y = (j : ℚ)) ∧
    (∀ (w h r : ℚ) (bin : Gen.GBin) (p : Plc),
        Gen.find_best_placement_in_bin w h r bin = some p →
        (∃ i : ℤ, p.x = (i : ℚ)) ∧ ∃ j : ℤ, p.y = (j : ℚ)) := by
  constructor
  · exact simple_candidates_on_grid
  · intro w h r bin p hp
    unfold Gen.find_best_placement_in_bin at hp
    have hmem := List.mem_of_find?_eq_some hp
    simp only [List.mem_map] at hmem
    obtain ⟨c, _, hpeq⟩ := hmem
    subst hpeq
    exact ⟨⟨c.1, rfl⟩, ⟨c.2, rfl⟩⟩

namespace Sky

/-- In a well-formed skyline the node x-coordinates strictly increase. -/
theorem sky_pairwise_x {s : List SkyNode} (hc : SkyChain s) (hw : WPos s) :
    s.Pairwise (fun a b => a.x < b.x) := by
  induction s with
  | nil => exact List.Pairwise.nil
  | cons a t ih =>
    rcases List.chain'_cons'.mp hc with ⟨hhead, htail⟩
    have hwt : WPos t := fun n hn => hw n (List.mem_cons_of_mem _ hn)
    have hpt := ih htail hwt
    refine List.pairwise_cons.mpr ⟨?_, hpt⟩
    intro b hb
    cases t with
    | nil => cases hb
    | cons c t' =>
      have hac : NodeAdj a c := hhead c rfl
      have haw : 0 < a.width := hw a (List.mem_cons_self _ _)
      have hax : a.x < c.x := by
        have := hac
        unfold NodeAdj at this
        linarith
      rcases List.mem_cons.mp hb with rfl | hb'
      · exact hax
      · exact lt_trans hax ((List.pairwise_cons.mp hpt).1 b hb')

/-- With strictly increasing x-coordinates, dropping the nodes left of the
i-th node's x-coordinate is dropping the first i nodes. -/
theorem sky_dropWhile_eq_drop :
    ∀ (s : List SkyNode) (i : ℕ) (h : i < s.length),
      s.Pairwise (fun a b => a.x < b.x) →
      s.dropWhile (fun m => decide (m.x < (s.get ⟨i, h⟩).x)) = s.drop i
  | [], i, h, _ => absurd h (by simp)
  | a :: t, 0, h, hp => by
    simp [List.dropWhile_cons]
  | a :: t, i + 1, h, hp => by
    have hi : i < t.length := Nat.lt_of_succ_lt_succ h
    have hlt : a.x < (t.get ⟨i, hi⟩).x :=
      (List.pairwise_cons.mp hp).1 _ (t.get_mem _ _)
    simp only [List.dropWhile_cons, List.get_cons_succ, List.drop_succ_cons]
    rw [if_pos (by simpa using hlt)]
    exact sky_dropWhile_eq_drop t i hi (List.pairwise_cons.mp hp).2

/-- With strictly increasing x-coordinates, keeping the nodes left of the
i-th node's x-coordinate is keeping the first i nodes. -/
theorem sky_takeWhile_eq_take :
    ∀ (s : List SkyNode) (i : ℕ) (h : i < s.length),
      s.Pairwise (fun a b => a.x < b.x) →
      s.takeWhile (fun m => decide (m.x < (s.get ⟨i, h⟩).x)) = s.take i
  | [], i, h, _ => absurd h (by simp)
  | a :: t, 0, h, hp => by
    simp [List.takeWhile_cons]
  | a :: t, i + 1, h, hp => by
    have hi : i < t.length := Nat.lt_of_succ_lt_succ h
    have hlt : a.x < (t.get ⟨i, hi⟩).x :=
      (List.pairwise_cons.mp hp).1 _ (t.get_mem _ _)
    simp only [List.takeWhile_cons, List.get_cons_succ, List.take_succ_cons]
    rw [if_pos (by simpa using hlt)]
    rw [sky_takeWhile_eq_take t i hi (List.pairwise_cons.mp hp).2]

/-- Every node strictly before the i-th node ends at or before the i-th
node's left edge. -/
theorem sky_take_right_le :
    ∀ (s : List SkyNode) (i : ℕ) (h : i < s.length), SkyChain s → WPos s →
      ∀ b ∈ s.take i, b.x + b.width ≤ (s.get ⟨i, h⟩).x
  | _, 0, _, _, _ => by simp
  | [], i + 1, h, _, _ => absurd h (by simp)
  | a :: t, i + 1, h, hc, hw => by
    intro b hb
    have hi : i < t.length := Nat.lt_of_succ_lt_succ h
    have htc : SkyChain t := (List.chain'_cons'.mp hc).2
    have htw : WPos t := fun n hn => hw n (List.mem_cons_of_mem _ hn)
    simp only [List.take_succ_cons, List.get_cons_succ] at hb ⊢
    rcases List.mem_cons.mp hb with rfl | hb'
    · cases t with
      | nil => exact absurd hi (by simp)
      | cons c t' =>
        have hac : NodeAdj b c := (List.chain'_cons'.mp hc).1 c rfl
        have hcx : c.x ≤ ((c :: t').get ⟨i, hi⟩).x := by
          cases i with
          | zero => simp
          | succ j =>
            have hj : j < t'.length := Nat.lt_of_succ_lt_succ hi
            have hpt := sky_pairwise_x htc htw
            have := (List.pairwise_cons.mp hpt).1 _ (t'.get_mem j hj)
            simpa using le_of_lt this
        calc b.x + b.width = c.x := hac
          _ ≤ _ := hcx
    · exact sky_take_right_le t i hi htc htw b hb'

/-- Every node of the tail of a well-formed skyline suffix starts at or
after the head node's right edge. -/
theorem sky_rest_left_ge {n : SkyNode} {rest : List SkyNode}
    (hc : List.Chain' NodeAdj (n :: rest)) (hw : ∀ m ∈ n :: rest, 0 < m.width) :
    ∀ m ∈ rest, n.x + n.width ≤ m.x := by
  intro m hm
  cases rest with
  | nil => cases hm
  | cons r rest' =>
    have hnr : NodeAdj n r := (List.chain'_cons'.mp hc).1 r rfl
    rcases List.mem_cons.mp hm with rfl | hm'
    · exact le_of_eq hnr
    · have hpt := sky_pairwise_x (List.chain'_cons'.mp hc).2
        (fun k hk => hw k (List.mem_cons_of_mem _ hk))
      have := (List.pairwise_cons.mp hpt).1 m hm'
      calc n.x + n.width = r.x := hnr
        _ ≤ m.x := le_of_lt this

/-- When the requested width fits inside the i-th node, `find_min_y`
returns exactly that node's height. -/
theorem sky_find_min_y_eq {s : List SkyNode} {i : ℕ} {n : SkyNode}
    {rest : List SkyNode} (hdrop : s.drop i = n :: rest) {w : ℚ}
    (hw : w ≤ n.width) : find_min_y s i w = n.y := by
  unfold find_min_y
  rw [hdrop]
  show findMinYAux n.y w (n :: rest) = n.y
  unfold findMinYAux
  by_cases h0 : 0 < w
  · rw [if_pos h0]
    have hns : ¬ 0 < w - n.width := by linarith
    cases rest with
    | nil => unfold findMinYAux; simp
    | cons r rest' =>
      unfold findMinYAux
      rw [if_neg hns]
      simp
  · rw [if_neg h0]

/-- Nodes wholly to the right of the placement's right edge are kept
unchanged by the clipping pass of `update_skyline`. -/
theorem sky_filterMap_clip_id (q : Plc) :
    ∀ (l : List SkyNode) (m : SkyNode), List.Chain' NodeAdj (m :: l) →
      (∀ r ∈ l, 0 < r.width) → q.x + q.width ≤ m.x + m.width →
      (l.filterMap (fun n =>
        if q.x + q.width ≤ n.x then some n
        else if q.x + q.width < n.x + n.width then
          some ⟨q.x + q.width, n.y, n.x + n.width - (q.x + q.width)⟩
        else none)) = l
  | [], m, _, _, _ => rfl
  | r :: l', m, hc, hw, hq => by
    have hmr : NodeAdj m r := (List.chain'_cons'.mp hc).1 r rfl
    have h1 : q.x + q.width ≤ r.x := hmr ▸ hq
    simp only [List.filterMap_cons]
    rw [if_pos h1]
    have hrw : 0 < r.width := hw r (List.mem_cons_self _ _)
    have h2 : q.x + q.width ≤ r.x + r.width := by linarith
    rw [sky_filterMap_clip_id q l' r (List.chain'_cons'.mp hc).2
      (fun k hk => hw k (List.mem_cons_of_mem _ hk)) h2]

/-- `mergeAux` keeps the accumulator's left edge and height at the head of
its output. -/
theorem sky_mergeAux_head :
    ∀ (l : List SkyNode) (acc : SkyNode),
      ∃ w', (mergeAux acc l).head? = some ⟨acc.x, acc.y, w'⟩
  | [], acc => ⟨acc.width, rfl⟩
  | n :: rest, acc => by
    unfold mergeAux
    by_cases hy : acc.y = n.y
    · rw [if_pos hy]
      exact sky_mergeAux_head rest ⟨acc.x, acc.y, acc.width + n.width⟩
    · rw [if_neg hy]
      exact ⟨acc.width, rfl⟩

/-- `mergeAux` preserves adjacency of the skyline. -/
theorem sky_mergeAux_chain :
    ∀ (l : List SkyNode) (acc : SkyNode), List.Chain' NodeAdj (acc :: l) →
      List.Chain' NodeAdj (mergeAux acc l)
  | [], acc, h => by simp [mergeAux]
  | n :: rest, acc, h => by
    have hadj : NodeAdj acc n := (List.chain'_cons'.mp h).1 n rfl
    have htail : List.Chain' NodeAdj (n :: rest) := (List.chain'_cons'.mp h).2
    unfold mergeAux
    by_cases hy : acc.y = n.y
    · rw [if_pos hy]
      apply sky_mergeAux_chain rest
      refine List.chain'_cons'.mpr ⟨?_, (List.chain'_cons'.mp htail).2⟩
      intro y hy'
      have := (List.chain'_cons'.mp htail).1 y hy'
      show (⟨acc.x, acc.y, acc.width + n.width⟩ : SkyNode).x +
        (⟨acc.x, acc.y, acc.width + n.width⟩ : SkyNode).width = y.x
      have hax : acc.x + acc.width = n.x := hadj
      have hnx : n.x + n.width = y.x := this
      simp only
      linarith
    · rw [if_neg hy]
      refine List.chain'_cons'.mpr ⟨?_, sky_mergeAux_chain rest n htail⟩
      intro y hy'
      rcases sky_mergeAux_head rest n with ⟨w', hw'⟩
      rw [hw'] at hy'
      simp only [Option.mem_def, Option.some.injEq] at hy'
      subst hy'
      exact hadj

/-- `mergeAux` preserves positivity of node widths. -/
theorem sky_mergeAux_wpos :
    ∀ (l : List SkyNode) (acc : SkyNode), 0 < acc.width →
      (∀ n ∈ l, 0 < n.width) → ∀ m ∈ mergeAux acc l, 0 < m.width
  | [], acc, ha, _, m, hm => by
    simp only [mergeAux, List.mem_singleton] at hm
    exact hm ▸ ha
  | n :: rest, acc, ha, hl, m, hm => by
    unfold mergeAux at hm
    by_cases hy : acc.y = n.y
    · rw [if_pos hy] at hm
      have hn : 0 < n.width := hl n (List.mem_cons_self _ _)
      refine sky_mergeAux_wpos rest ⟨acc.x, acc.y, acc.width + n.width⟩
        (by simp only; linarith) (fun k hk => hl k (List.mem_cons_of_mem _ hk)) m hm
    · rw [if_neg hy] at hm
      rcases List.mem_cons.mp hm with rfl | hm'
      · exact ha
      · exact sky_mergeAux_wpos rest n (hl n (List.mem_cons_self _ _))
          (fun k hk => hl k (List.mem_cons_of_mem _ hk)) m hm'

/-- `mergeAux` preserves the domination property: every merged node still
lies on or above every placement it overlaps in x. -/
theorem sky_mergeAux_dom (P : List Plc) (hP : ∀ p ∈ P, 0 < p.width) :
    ∀ (l : List SkyNode) (acc : SkyNode), List.Chain' NodeAdj (acc :: l) →
      NodeDom P acc → (∀ n ∈ l, NodeDom P n) →
      ∀ m ∈ mergeAux acc l, NodeDom P m
  | [], acc, _, hacc, _, m, hm => by
    simp only [mergeAux, List.mem_singleton] at hm
    exact hm ▸ hacc
  | n :: rest, acc, hc, hacc, hl, m, hm => by
    have hadj : NodeAdj acc n := (List.chain'_cons'.mp hc).1 n rfl
    have htail : List.Chain' NodeAdj (n :: rest) := (List.chain'_cons'.mp hc).2
    unfold mergeAux at hm
    by_cases hy : acc.y = n.y
    · rw [if_pos hy] at hm
      have hcomb : List.Chain' NodeAdj ((⟨acc.x, acc.y, acc.width + n.width⟩ : SkyNode) :: rest) := by
        refine List.chain'_cons'.mpr ⟨?_, (List.chain'_cons'.mp htail).2⟩
        intro y hy'
        have hnx : n.x + n.width = y.x := (List.chain'_cons'.mp htail).1 y hy'
        have hax : acc.x + acc.width = n.x := hadj
        show acc.x + (acc.width + n.width) = y.x
        linarith
      have hdomc : NodeDom P (⟨acc.x, acc.y, acc.width + n.width⟩ : SkyNode) := by
        intro p hp hov
        rcases hov with ⟨h1, h2⟩
        simp only at h1 h2
        by_cases hpx : p.x < acc.x + acc.width
        · exact hacc p hp ⟨hpx, h2⟩
        · have hax : acc.x + acc.width = n.x := hadj
          have hpw : 0 < p.width := hP p hp
          have hov2 : XOverN p n := by
            constructor
            · show p.x < n.x + n.width
              linarith
            · show n.x < p.x + p.width
              linarith
          have := hl n (List.mem_cons_self _ _) p hp hov2
          simp only
          rw [hy]
          exact this
      exact sky_mergeAux_dom P hP rest _ hcomb hdomc
        (fun k hk => hl k (List.mem_cons_of_mem _ hk)) m hm
    · rw [if_neg hy] at hm
      rcases List.mem_cons.mp hm with rfl | hm'
      · exact hacc
      · exact sky_mergeAux_dom P hP rest n htail (hl n (List.mem_cons_self _ _))
          (fun k hk => hl k (List.mem_cons_of_mem _ hk)) m hm'

/-- `merge_skyline` preserves adjacency. -/
theorem sky_merge_chain {l : List SkyNode} (h : SkyChain l) :
    SkyChain (merge_skyline l) := by
  cases l with
  | nil => exact h
  | cons a t => exact sky_mergeAux_chain t a h

/-- `merge_skyline` preserves width positivity. -/
theorem sky_merge_wpos {l : List SkyNode} (h : WPos l) :
    WPos (merge_skyline l) := by
  cases l with
  | nil => exact h
  | cons a t =>
    intro m hm
    exact sky_mergeAux_wpos t a (h a (List.mem_cons_self _ _))
      (fun k hk => h k (List.mem_cons_of_mem _ hk)) m hm

/-- `merge_skyline` preserves the domination property. -/
theorem sky_merge_dom {P : List Plc} (hP : ∀ p ∈ P, 0 < p.width)
    {l : List SkyNode} (hc : SkyChain l) (h : ∀ n ∈ l, NodeDom P n) :
    ∀ m ∈ merge_skyline l, NodeDom P m := by
  cases l with
  | nil => exact h
  | cons a t =>
    exact sky_mergeAux_dom P hP t a hc (h a (List.mem_cons_self _ _))
      (fun k hk => h k (List.mem_cons_of_mem _ hk))

/-- The best-score fold only ever returns an element satisfying any
property shared by the accumulator and the candidates. -/
theorem sky_foldl_pick (score : Plc → ℚ) (P : Plc → Prop) :
    ∀ (l : List Plc), (∀ a ∈ l, P a) → ∀ (acc : Option (Plc × ℚ)),
      (∀ t : Plc × ℚ, acc = some t → P t.1) → ∀ t : Plc × ℚ,
      l.foldl (pickStep score) acc = some t → P t.1
  | [], _, acc, hacc, t, h => hacc t h
  | a :: l', hl, acc, hacc, t, h => by
    refine sky_foldl_pick score P l'
      (fun b hb => hl b (List.mem_cons_of_mem _ hb)) _ ?_ t h
    intro u hu
    have hpa : P a := hl a (List.mem_cons_self _ _)
    cases acc with
    | none =>
      simp only [List.foldl_cons, pickStep, Option.some.injEq] at hu
      rw [← hu]
      exact hpa
    | some bs =>
      simp only [pickStep] at hu
      split at hu
      · simp only [Option.some.injEq] at hu
        rw [← hu]
        exact hpa
      · exact hacc u hu

/-- `pickBestByScore` returns an element of its candidate list. -/
theorem sky_pickBest_mem (score : Plc → ℚ) (cands : List Plc) {p : Plc}
    (h : pickBestByScore score cands = some p) : p ∈ cands := by
  unfold pickBestByScore at h
  rcases Option.map_eq_some'.mp h with ⟨t, ht, hp⟩
  have := sky_foldl_pick score (fun q => q ∈ cands) cands (fun a ha => ha)
    none (fun u hu => by cases hu) t ht
  exact hp ▸ this

/-- Characterization of skyline candidates: each one sits at a node's left
edge, fits inside that node's width, has its y computed by `find_min_y`,
takes its extents from the shape (possibly swapped), and respects the bin
height. -/
theorem sky_candidate_spec {cfg : Config} {shape : Rect} {bin : SkyBin}
    {q : Plc} (hq : q ∈ skyCandidates cfg shape bin) :
    ∃ i n rest, bin.skyline.drop i = n :: rest ∧ q.x = n.x ∧
      q.width ≤ n.width ∧ q.y = find_min_y bin.skyline i q.width ∧
      (q.width = shape.width ∨ q.width = shape.height) ∧
      (q.height = shape.width ∨ q.height = shape.height) ∧
      q.y + q.height ≤ bin.height := by
  unfold skyCandidates at hq
  rcases List.mem_flatMap.mp hq with ⟨r, _, hq2⟩
  rcases List.mem_flatMap.mp hq2 with ⟨flip, _, hq3⟩
  rcases List.mem_filterMap.mp hq3 with ⟨en, hen, hf⟩
  have hget : bin.skyline.get? en.1 = some en.2 := List.mem_enum_iff_get?.mp hen
  have hlen : en.1 < bin.skyline.length := (List.get?_eq_some.mp hget).1
  have hdrop : bin.skyline.drop en.1 = en.2 :: bin.skyline.drop (en.1 + 1) := by
    rw [List.drop_eq_getElem_cons hlen]
    have : bin.skyline[en.1] = en.2 := by
      have := (List.get?_eq_some.mp hget).2
      simpa [List.get_eq_getElem] using this
    rw [this]
  by_cases hwide : (if flip then shape.height else shape.width) > en.2.width
  · rw [if_pos hwide] at hf
    cases hf
  · rw [if_neg hwide] at hf
    simp only at hf
    by_cases hhigh : find_min_y bin.skyline en.1
        (if flip then shape.height else shape.width) +
        (if flip then shape.width else shape.height) > bin.height
    · rw [if_pos hhigh] at hf
      cases hf
    · rw [if_neg hhigh] at hf
      simp only [Option.some.injEq] at hf
      refine ⟨en.1, en.2, bin.skyline.drop (en.1 + 1), hdrop, ?_, ?_, ?_, ?_, ?_, ?_⟩
      · rw [← hf]
      · rw [← hf]
        simpa using le_of_not_lt hwide
      · rw [← hf]
      · rw [← hf]
        cases flip <;> simp
      · rw [← hf]
        cases flip <;> simp
      · rw [← hf]
        simpa using le_of_not_lt hhigh

/-- Placing a candidate at a node's left edge (with its y given by the
node's height) preserves the whole bin invariant through
`update_skyline`. -/
theorem sky_update_skyline_inv {bin : SkyBin} {q : Plc}
    (hchain : SkyChain bin.skyline) (hwpos : WPos bin.skyline)
    (hppos : ∀ p ∈ bin.placements, 0 < p.width ∧ 0 < p.height)
    (hdom : ∀ n ∈ bin.skyline, NodeDom bin.placements n)
    (hnov : bin.placements.Pairwise (fun p r => ¬ OverlapsOpen p r))
    {i : ℕ} {n : SkyNode} {rest : List SkyNode}
    (hdrop : bin.skyline.drop i = n :: rest)
    (hqx : q.x = n.x) (hqw : q.width ≤ n.width) (hqy : q.y = n.y)
    (hqwpos : 0 < q.width) (hqhpos : 0 < q.height) :
    SkyInv (update_skyline { bin with placements := bin.placements ++ [q] } q) := by
  have hlen : i < bin.skyline.length := by
    by_contra hle
    push_neg at hle
    rw [List.drop_eq_nil_of_le hle] at hdrop
    exact List.noConfusion hdrop
  have hpx := sky_pairwise_x hchain hwpos
  have hdropg := (List.drop_eq_getElem_cons hlen).symm.trans hdrop
  injection hdropg with hgetn hrest
  have hgx : (bin.skyline.get ⟨i, hlen⟩).x = q.x := by
    rw [List.get_eq_getElem, hgetn, hqx]
  have hdw : bin.skyline.dropWhile (fun m => decide (m.x < q.x)) = n :: rest := by
    rw [← hgx, sky_dropWhile_eq_drop bin.skyline i hlen hpx, hdrop]
  have htw : bin.skyline.takeWhile (fun m => decide (m.x < q.x)) =
      bin.skyline.take i := by
    rw [← hgx, sky_takeWhile_eq_take bin.skyline i hlen hpx]
  have hnmem : n ∈ bin.skyline := by
    have : n ∈ bin.skyline.drop i := by rw [hdrop]; exact List.mem_cons_self _ _
    exact List.drop_subset i _ this
  have hcd : List.Chain' NodeAdj (n :: rest) := by
    have := hchain.suffix ⟨bin.skyline.take i, List.take_append_drop i _⟩
    rwa [hdrop] at this
  have hwd : ∀ m ∈ n :: rest, 0 < m.width := by
    intro m hm
    exact hwpos m (List.drop_subset i _ (hdrop ▸ hm))
  have hrestx : ∀ m ∈ rest, n.x + n.width ≤ m.x := sky_rest_left_ge hcd hwd
  have hrest_mem : ∀ m ∈ rest, m ∈ bin.skyline := by
    intro m hm
    exact List.drop_subset i _ (hdrop ▸ List.mem_cons_of_mem _ hm)
  have htake_mem : ∀ m ∈ bin.skyline.take i, m ∈ bin.skyline :=
    fun m hm => List.take_subset i _ hm
  have htake_right : ∀ b ∈ bin.skyline.take i, b.x + b.width ≤ q.x := by
    intro b hb
    have := sky_take_right_le bin.skyline i hlen hchain hwpos b hb
    rwa [hgx] at this
  have hqr_le : q.x + q.width ≤ n.x + n.width := by rw [hqx]; linarith
  -- the appended placement list and its basic properties
  have hP : ∀ p ∈ bin.placements ++ [q], 0 < p.width ∧ 0 < p.height := by
    intro p hp
    rcases List.mem_append.mp hp with hp' | hp'
    · exact hppos p hp'
    · rcases List.mem_singleton.mp hp' with rfl
      exact ⟨hqwpos, hqhpos⟩
  have hPw : ∀ p ∈ bin.placements ++ [q], 0 < p.width := fun p hp => (hP p hp).1
  -- the new placement does not overlap any old one
  have hqold : ∀ p ∈ bin.placements, ¬ OverlapsOpen p q := by
    intro p hp hov
    rcases hov with ⟨h1, h2, h3, h4⟩
    have hxov : XOverN p n := by
      constructor
      · show p.x < n.x + n.width
        linarith
      · show n.x < p.x + p.width
        linarith
    have := hdom n hnmem p hp hxov
    linarith
  have hpairP : (bin.placements ++ [q]).Pairwise (fun p r => ¬ OverlapsOpen p r) := by
    refine List.pairwise_append.mpr ⟨hnov, List.pairwise_singleton _ _, ?_⟩
    intro p hp r hr
    rcases List.mem_singleton.mp hr with rfl
    exact hqold p hp
  -- chain decomposition of the old skyline at the placement node
  have hchain2 : List.Chain' NodeAdj (bin.skyline.take i ++ n :: rest) := by
    rw [← hdrop, List.take_append_drop]
    exact hchain
  rcases List.chain'_append.mp hchain2 with ⟨hcTake, _, hlink⟩
  have hlinkq : ∀ x ∈ (bin.skyline.take i).getLast?, x.x + x.width = q.x := by
    intro x hx
    have := hlink x hx n rfl
    rw [hqx]
    exact this
  -- the clipping pass keeps the tail nodes unchanged
  have hfmrest : rest.filterMap (fun m =>
      if q.x + q.width ≤ m.x then some m
      else if q.x + q.width < m.x + m.width then
        some ⟨q.x + q.width, m.y, m.x + m.width - (q.x + q.width)⟩
      else none) = rest :=
    sky_filterMap_clip_id q rest n hcd
      (fun r hr => hwd r (List.mem_cons_of_mem _ hr)) hqr_le
  have hnotle : ¬ q.x + q.width ≤ n.x := by
    rw [hqx]
    linarith
  -- per-node domination facts for the pre-merge skyline
  have hdomTake : ∀ m ∈ bin.skyline.take i,
      NodeDom (bin.placements ++ [q]) m := by
    intro m hm p hp hov
    rcases List.mem_append.mp hp with hp' | hp'
    · exact hdom m (htake_mem m hm) p hp' hov
    · rcases List.mem_singleton.mp hp' with rfl
      have h1 : p.x < m.x + m.width := hov.1
      have := htake_right m hm
      exact absurd h1 (not_lt.mpr (by linarith))
  have hdomRest : ∀ m ∈ rest, NodeDom (bin.placements ++ [q]) m := by
    intro m hm p hp hov
    rcases List.mem_append.mp hp with hp' | hp'
    · exact hdom m (hrest_mem m hm) p hp' hov
    · rcases List.mem_singleton.mp hp' with rfl
      have h2 : m.x < p.x + p.width := hov.2
      have := hrestx m hm
      exact absurd h2 (not_lt.mpr (by linarith))
  have hdomNew : NodeDom (bin.placements ++ [q])
      (⟨q.x, q.y + q.height, q.width⟩ : SkyNode) := by
    intro p hp hov
    have h1 : p.x < q.x + q.width := hov.1
    have h2 : q.x < p.x + p.width := hov.2
    show p.y + p.height ≤ q.y + q.height
    rcases List.mem_append.mp hp with hp' | hp'
    · have hxov : XOverN p n := ⟨by linarith, by linarith⟩
      have := hdom n hnmem p hp' hxov
      linarith
    · rcases List.mem_singleton.mp hp' with rfl
      exact le_refl _
  -- identify the new skyline produced by `update_skyline`
  have hplc : (update_skyline { bin with placements := bin.placements ++ [q] } q).placements
      = bin.placements ++ [q] := rfl
  have hsky : (update_skyline { bin with placements := bin.placements ++ [q] } q).skyline
      = merge_skyline (bin.skyline.take i ++
          (⟨q.x, q.y + q.height, q.width⟩ : SkyNode) ::
          (n :: rest).filterMap (fun m =>
            if q.x + q.width ≤ m.x then some m
            else if q.x + q.width < m.x + m.width then
              some ⟨q.x + q.width, m.y, m.x + m.width - (q.x + q.width)⟩
            else none)) := by
    show merge_skyline (bin.skyline.takeWhile (fun m => decide (m.x < q.x)) ++
        (⟨q.x, q.y + q.height, q.width⟩ : SkyNode) ::
        (bin.skyline.dropWhile (fun m => decide (m.x < q.x))).filterMap (fun m =>
          if q.x + q.width ≤ m.x then some m
          else if q.x + q.width < m.x + m.width then
            some ⟨q.x + q.width, m.y, m.x + m.width - (q.x + q.width)⟩
          else none)) = _
    rw [htw, hdw]
  unfold SkyInv
  rw [hsky, hplc]
  by_cases hclip : q.x + q.width < n.x + n.width
  · -- a clipped remainder of the consumed node survives
    have hcn : (fun m =>
        if q.x + q.width ≤ m.x then some m
        else if q.x + q.width < m.x + m.width then
          some (⟨q.x + q.width, m.y, m.x + m.width - (q.x + q.width)⟩ : SkyNode)
        else none) n =
        some ⟨q.x + q.width, n.y, n.x + n.width - (q.x + q.width)⟩ := by
      simp only
      rw [if_neg hnotle, if_pos hclip]
    have hfm : (n :: rest).filterMap (fun m =>
        if q.x + q.width ≤ m.x then some m
        else if q.x + q.width < m.x + m.width then
          some (⟨q.x + q.width, m.y, m.x + m.width - (q.x + q.width)⟩ : SkyNode)
        else none) =
        (⟨q.x + q.width, n.y, n.x + n.width - (q.x + q.width)⟩ : SkyNode) :: rest := by
      rw [@List.filterMap_cons_some SkyNode SkyNode (fun m =>
        if q.x + q.width ≤ m.x then some m
        else if q.x + q.width < m.x + m.width then
          some (⟨q.x + q.width, m.y, m.x + m.width - (q.x + q.width)⟩ : SkyNode)
        else none) n rest ⟨q.x + q.width, n.y, n.x + n.width - (q.x + q.width)⟩ hcn,
        hfmrest]
    rw [hfm]
    have hLc : List.Chain' NodeAdj (bin.skyline.take i ++
        (⟨q.x, q.y + q.height, q.width⟩ : SkyNode) ::
        (⟨q.x + q.width, n.y, n.x + n.width - (q.x + q.width)⟩ : SkyNode) :: rest) := by
      refine List.chain'_append.mpr ⟨hcTake, ?_, ?_⟩
      · refine List.chain'_cons'.mpr ⟨?_, ?_⟩
        · intro y hy
          simp only [List.head?_cons, Option.mem_def, Option.some.injEq] at hy
          subst hy
          show q.x + q.width = q.x + q.width
          rfl
        · refine List.chain'_cons'.mpr ⟨?_, (List.chain'_cons'.mp hcd).2⟩
          intro y hy
          have hny : n.x + n.width = y.x := (List.chain'_cons'.mp hcd).1 y hy
          show (q.x + q.width) + (n.x + n.width - (q.x + q.width)) = y.x
          linarith
      · intro x hx y hy
        simp only [List.head?_cons, Option.mem_def, Option.some.injEq] at hy
        subst hy
        show x.x + x.width = q.x
        exact hlinkq x hx
    have hLw : WPos (bin.skyline.take i ++
        (⟨q.x, q.y + q.height, q.width⟩ : SkyNode) ::
        (⟨q.x + q.width, n.y, n.x + n.width - (q.x + q.width)⟩ : SkyNode) :: rest) := by
      intro m hm
      rcases List.mem_append.mp hm with hmT | hmC
      · exact hwpos m (htake_mem m hmT)
      · rcases List.mem_cons.mp hmC with rfl | hmC'
        · exact hqwpos
        · rcases List.mem_cons.mp hmC' with rfl | hmR
          · show 0 < n.x + n.width - (q.x + q.width)
            linarith
          · exact hwd m (List.mem_cons_of_mem _ hmR)
    have hdomClip : NodeDom (bin.placements ++ [q])
        (⟨q.x + q.width, n.y, n.x + n.width - (q.x + q.width)⟩ : SkyNode) := by
      intro p hp hov
      have h1 : p.x < (q.x + q.width) + (n.x + n.width - (q.x + q.width)) := hov.1
      have h2 : q.x + q.width < p.x + p.width := hov.2
      show p.y + p.height ≤ n.y
      rcases List.mem_append.mp hp with hp' | hp'
      · have hxov : XOverN p n := ⟨by linarith, by linarith⟩
        exact hdom n hnmem p hp' hxov
      · rcases List.mem_singleton.mp hp' with rfl
        exact absurd h2 (lt_irrefl _)
    have hLd : ∀ m ∈ bin.skyline.take i ++
        (⟨q.x, q.y + q.height, q.width⟩ : SkyNode) ::
        (⟨q.x + q.width, n.y, n.x + n.width - (q.x + q.width)⟩ : SkyNode) :: rest,
        NodeDom (bin.placements ++ [q]) m := by
      intro m hm
      rcases List.mem_append.mp hm with hmT | hmC
      · exact hdomTake m hmT
      · rcases List.mem_cons.mp hmC with rfl | hmC'
        · exact hdomNew
        · rcases List.mem_cons.mp hmC' with rfl | hmR
          · exact hdomClip
          · exact hdomRest m hmR
    exact ⟨sky_merge_chain hLc, sky_merge_wpos hLw, hP,
      sky_merge_dom hPw hLc hLd, hpairP⟩
  · -- the consumed node is covered exactly: it disappears
    have hB : q.x + q.width = n.x + n.width := le_antisymm hqr_le (not_lt.mp hclip)
    have hcn : (fun m =>
        if q.x + q.width ≤ m.x then some m
        else if q.x + q.width < m.x + m.width then
          some (⟨q.x + q.width, m.y, m.x + m.width - (q.x + q.width)⟩ : SkyNode)
        else none) n = none := by
      simp only
      rw [if_neg hnotle, if_neg hclip]
    have hfm : (n :: rest).filterMap (fun m =>
        if q.x + q.width ≤ m.x then some m
        else if q.x + q.width < m.x + m.width then
          some (⟨q.x + q.width, m.y, m.x + m.width - (q.x + q.width)⟩ : SkyNode)
        else none) = rest := by
      rw [@List.filterMap_cons_none SkyNode SkyNode (fun m =>
        if q.x + q.width ≤ m.x then some m
        else if q.x + q.width < m.x + m.width then
          some (⟨q.x + q.width, m.y, m.x + m.width - (q.x + q.width)⟩ : SkyNode)
        else none) n rest hcn, hfmrest]
    rw [hfm]
    have hLc : List.Chain' NodeAdj (bin.skyline.take i ++
        (⟨q.x, q.y + q.height, q.width⟩ : SkyNode) :: rest) := by
      refine List.chain'_append.mpr ⟨hcTake, ?_, ?_⟩
      · refine List.chain'_cons'.mpr ⟨?_, (List.chain'_cons'.mp hcd).2⟩
        intro y hy
        have hny : n.x + n.width = y.x := (List.chain'_cons'.mp hcd).1 y hy
        show q.x + q.width = y.x
        linarith
      · intro x hx y hy
        simp only [List.head?_cons, Option.mem_def, Option.some.injEq] at hy
        subst hy
        show x.x + x.width = q.x
        exact hlinkq x hx
    have hLw : WPos (bin.skyline.take i ++
        (⟨q.x, q.y + q.height, q.width⟩ : SkyNode) :: rest) := by
      intro m hm
      rcases List.mem_append.mp hm with hmT | hmC
      · exact hwpos m (htake_mem m hmT)
      · rcases List.mem_cons.mp hmC with rfl | hmR
        · exact hqwpos
        · exact hwd m (List.mem_cons_of_mem _ hmR)
    have hLd : ∀ m ∈ bin.skyline.take i ++
        (⟨q.x, q.y + q.height, q.width⟩ : SkyNode) :: rest,
        NodeDom (bin.placements ++ [q]) m := by
      intro m hm
      rcases List.mem_append.mp hm with hmT | hmC
      · exact hdomTake m hmT
      · rcases List.mem_cons.mp hmC with rfl | hmR
        · exact hdomNew
        · exact hdomRest m hmR
    exact ⟨sky_merge_chain hLc, sky_merge_wpos hLw, hP,
      sky_merge_dom hPw hLc hLd, hpairP⟩

/-- Committing a candidate placement (with its shape index set) preserves
the bin invariant. -/
theorem sky_place_candidate_inv {cfg : Config} {shape : Rect} {bin : SkyBin}
    {p : Plc} (hinv : SkyInv bin) (hp : p ∈ skyCandidates cfg shape bin)
    (hsw : 0 < shape.width) (hsh : 0 < shape.height) (idx : ℕ) :
    SkyInv (update_skyline
      { bin with placements := bin.placements ++ [{ p with shapeIndex := idx }] }
      { p with shapeIndex := idx }) := by
  obtain ⟨hchain, hwpos, hppos, hdom, hnov⟩ := hinv
  obtain ⟨i, n, rest, hdrop, hpx, hpw, hpy, hwc, hhc, _⟩ := sky_candidate_spec hp
  have hyn : p.y = n.y := by rw [hpy]; exact sky_find_min_y_eq hdrop hpw
  have hwpos' : 0 < p.width := by rcases hwc with hh | hh <;> rw [hh] <;> assumption
  have hhpos' : 0 < p.height := by rcases hhc with hh | hh <;> rw [hh] <;> assumption
  exact sky_update_skyline_inv hchain hwpos hppos hdom hnov hdrop hpx hpw hyn hwpos' hhpos'

/-- A placement returned by the lookahead search is one of the enumerated
skyline candidates. -/
theorem sky_fbpl_some_mem {cfg : Config} {shape : Rect} {bin : SkyBin}
    {las : List (ℕ × Rect)} {p : Plc}
    (h : find_best_placement_with_lookahead cfg shape bin las = Except.ok (some p)) :
    p ∈ skyCandidates cfg shape bin := by
  unfold find_best_placement_with_lookahead at h
  split at h
  · exact absurd h (by simp [throw, throwThe, MonadExceptOf.throw])
  · simp only [pure, Except.pure, Except.ok.injEq] at h
    exact sky_pickBest_mem _ _ h

/-- The per-bin loop of `nest` preserves the invariant of every bin. -/
theorem sky_tryBins_inv {cfg : Config} {shape : Rect} {idx : ℕ}
    {las : List (ℕ × Rect)} (hsw : 0 < shape.width) (hsh : 0 < shape.height) :
    ∀ {bins bins' : List SkyBin}, (∀ b ∈ bins, SkyInv b) →
      tryBinsSky cfg shape idx las bins = Except.ok (some bins') →
      ∀ b ∈ bins', SkyInv b := by
  intro bins
  induction bins with
  | nil =>
    intro bins' hinv h
    simp [tryBinsSky, pure, Except.pure] at h
  | cons bin rest ih =>
    intro bins' hinv h
    unfold tryBinsSky at h
    simp only [Bind.bind, Except.bind] at h
    cases hf : find_best_placement_with_lookahead cfg shape bin las with
    | error e => rw [hf] at h; simp at h
    | ok r =>
      rw [hf] at h
      simp only at h
      cases r with
      | some p =>
        simp only [pure, Except.pure, Except.ok.injEq, Option.some.injEq] at h
        subst h
        intro b hb
        rcases List.mem_cons.mp hb with rfl | hb'
        · exact sky_place_candidate_inv (hinv bin (List.mem_cons_self _ _))
            (sky_fbpl_some_mem hf) hsw hsh idx
        · exact hinv b (List.mem_cons_of_mem _ hb')
      | none =>
        cases ho : tryBinsSky cfg shape idx las rest with
        | error e => rw [ho] at h; simp at h
        | ok o =>
          rw [ho] at h
          simp only [pure, Except.pure, Except.ok.injEq] at h
          cases o with
          | none => simp at h
          | some bs =>
            simp only [Option.map_some', Option.some.injEq] at h
            subst h
            intro b hb
            rcases List.mem_cons.mp hb with rfl | hb'
            · exact hinv b (List.mem_cons_self _ _)
            · exact ih (fun c hc => hinv c (List.mem_cons_of_mem _ hc)) ho b hb'

/-- The main loop of `nest` preserves the invariant of every bin. -/
theorem sky_nestGo_inv {cfg : Config} (hbw : 0 < cfg.binWidth) :
    ∀ (items : List (ℕ × Rect)) {bins : List SkyBin} {unp : List ℕ}
      {bins' : List SkyBin} {unp' : List ℕ},
      (∀ it ∈ items, 0 < it.2.width ∧ 0 < it.2.height) →
      (∀ b ∈ bins, SkyInv b) →
      nestGo cfg items bins unp = Except.ok (bins', unp') →
      ∀ b ∈ bins', SkyInv b
  | [], bins, unp, bins', unp', _, hinv, h => by
    simp only [nestGo, pure, Except.pure, Except.ok.injEq, Prod.mk.injEq] at h
    intro b hb
    exact hinv b (h.1 ▸ hb)
  | (idx, shape) :: restItems, bins, unp, bins', unp', hit, hinv, h => by
    have hsw : 0 < shape.width := (hit (idx, shape) (List.mem_cons_self _ _)).1
    have hsh : 0 < shape.height := (hit (idx, shape) (List.mem_cons_self _ _)).2
    have hit' : ∀ it ∈ restItems, 0 < it.2.width ∧ 0 < it.2.height :=
      fun it h' => hit it (List.mem_cons_of_mem _ h')
    unfold nestGo at h
    simp only [Bind.bind, Except.bind] at h
    cases ht : tryBinsSky cfg shape idx (restItems.take cfg.lookAhead) bins with
    | error e => rw [ht] at h; simp at h
    | ok r =>
      rw [ht] at h
      simp only at h
      cases r with
      | some bins2 =>
        exact sky_nestGo_inv hbw restItems hit' (sky_tryBins_inv hsw hsh hinv ht) h
      | none =>
        cases hn : find_best_placement_with_lookahead cfg shape
            (⟨cfg.binWidth, cfg.binHeight, [], [⟨0, 0, cfg.binWidth⟩]⟩ : SkyBin)
            (restItems.take cfg.lookAhead) with
        | error e => rw [hn] at h; simp at h
        | ok rN =>
          rw [hn] at h
          simp only at h
          cases rN with
          | some p =>
            refine sky_nestGo_inv hbw restItems hit' ?_ h
            intro b hb
            rcases List.mem_append.mp hb with hb' | hb'
            · exact hinv b hb'
            · rcases List.mem_singleton.mp hb' with rfl
              have hfresh : SkyInv
                  (⟨cfg.binWidth, cfg.binHeight, [], [⟨0, 0, cfg.binWidth⟩]⟩ : SkyBin) := by
                refine ⟨List.chain'_singleton _, ?_, ?_, ?_, List.Pairwise.nil⟩
                · intro m hm
                  rcases List.mem_singleton.mp hm with rfl
                  exact hbw
                · intro p' hp'
                  cases hp'
                · intro m hm p' hp'
                  cases hp'
              exact sky_place_candidate_inv hfresh (sky_fbpl_some_mem hn) hsw hsh idx
          | none =>
            exact sky_nestGo_inv hbw restItems hit' hinv h

/-- `SkylineNester.nest` only produces bins whose placements are pairwise
non-overlapping. -/
theorem sky_nest_no_overlap {cfg : Config} {shapes : List Rect}
    {bins : List SkyBin} {unp : List ℕ} (hbw : 0 < cfg.binWidth)
    (hshapes : ∀ s ∈ shapes, 0 < s.width ∧ 0 < s.height)
    (h : nest cfg shapes = Except.ok (bins, unp)) :
    ∀ b ∈ bins, b.placements.Pairwise (fun p r => ¬ OverlapsOpen p r) := by
  unfold nest at h
  have hitems : ∀ it ∈ sortDescBy (fun t => rectKey cfg.sortMethod t.2) shapes.enum,
      0 < it.2.width ∧ 0 < it.2.height := by
    intro it hit
    have hmem : it ∈ shapes.enum := ((sortDescBy_perm _ _).mem_iff).mp hit
    have hsnd : it.2 ∈ shapes := by
      have := List.mem_map_of_mem Prod.snd hmem
      rwa [List.enum_map_snd] at this
    exact hshapes it.2 hsnd
  have hres := sky_nestGo_inv hbw _ hitems (fun b hb => absurd hb (List.not_mem_nil b)) h
  intro b hb
  exact (hres b hb).2.2.2.2

end Sky

/-- C1: in every bin returned by a packer's `nest` — guillotine
`SimpleNester`, `GeneticNester`, `SkylineNester` — any two distinct
placements do not overlap as axis-aligned open rectangles (shared edges
permitted); for the skyline nester this holds for every valid configuration
(positive bin width and positive shape dimensions). -/
theorem c1_no_overlap :
    (∀ (cfg : SimpleN.Config) (shapes : List Rect) (bins : List SimpleN.SBin)
       (unp : List ℕ), SimpleN.nest cfg shapes = Except.ok (bins, unp) →
       SimpleN.SBinsNoOverlap bins) ∧
    (∀ (cfg : Gen.Config) (shapes : List Rect) (rq : ℕ → ℚ) (rn : ℕ → ℕ)
       (bins : List Gen.GBin) (tr : List Gen.TraceEntry),
       Gen.nest cfg shapes rq rn = Except.ok (bins, tr) →
       PairwiseNoOverlap bins) ∧
    (∀ (cfg : Sky.Config) (shapes : List Rect) (bins : List Sky.SkyBin)
       (unp : List ℕ), 0 < cfg.binWidth →
       (∀ s ∈ shapes, 0 < s.width ∧ 0 < s.height) →
       Sky.nest cfg shapes = Except.ok (bins, unp) →
       ∀ b ∈ bins, b.placements.Pairwise (fun p r => ¬ OverlapsOpen p r)) := by
  refine ⟨?_, ?_, ?_⟩
  · intro cfg shapes bins unp h
    unfold SimpleN.nest at h
    exact SimpleN.simple_nestGo_no_overlap _
      (fun b hb => absurd hb (List.not_mem_nil b)) h
  · intro cfg shapes rq rn bins tr h
    obtain ⟨stF, g, _, _, hcb, _⟩ := Gen.nest_ok_parts h
    exact Gen.create_bins_from_solution_no_overlap hcb
  · intro cfg shapes bins unp hbw hsh h
    exact Sky.sky_nest_no_overlap hbw hsh h

unseal List.merge List.mergeSort Rat.add Rat.mul Rat.inv Rat.sub Nat.gcd in
/-- Witness for C1: concrete runs of the three nesters whose hypotheses are
discharged by evaluation. -/
theorem c1_no_overlap_witness :
    (SimpleN.nest validSimpleCfg [] = Except.ok ([], []) ∧
      SimpleN.SBinsNoOverlap []) ∧
    (Gen.nest oversizeCfg oversizeShapes (fun _ => 0) (fun _ => 0) =
        Except.ok ([{ width := 10, height := 10, placements := [] },
          { width := 10, height := 10,
            placements := [{ x := 0, y := 0, width := 20, height := 20,
                             rotation := 0, shapeIndex := 0 }] }],
          ([⟨2, [(0, 0, false)], [[(0, 0, false)]]⟩] : List Gen.TraceEntry)) ∧
      PairwiseNoOverlap [{ width := 10, height := 10, placements := [] },
        { width := 10, height := 10,
          placements := [{ x := 0, y := 0, width := 20, height := 20,
                           rotation := 0, shapeIndex := 0 }] }]) ∧
    (Sky.nest c1SkyCfg [⟨4, 4⟩] =
        Except.ok ([{ width := 10, height := 10,
                      placements := [{ x := 0, y := 0, width := 4, height := 4,
                                       rotation := 0, shapeIndex := 0 }],
                      skyline := [⟨0, 4, 4⟩, ⟨4, 0, 6⟩] }], []) ∧
      ∀ b ∈ [({ width := 10, height := 10,
                placements := [{ x := 0, y := 0, width := 4, height := 4,
                                 rotation := 0, shapeIndex := 0 }],
                skyline := [⟨0, 4, 4⟩, ⟨4, 0, 6⟩] } : Sky.SkyBin)],
        b.placements.Pairwise (fun p r => ¬ OverlapsOpen p r)) := by
  have hS : SimpleN.nest validSimpleCfg [] = Except.ok ([], []) := by decide
  have hG : Gen.nest oversizeCfg oversizeShapes (fun _ => 0) (fun _ => 0) =
      Except.ok ([{ width := 10, height := 10, placements := [] },
        { width := 10, height := 10,
          placements := [{ x := 0, y := 0, width := 20, height := 20,
                           rotation := 0, shapeIndex := 0 }] }],
        ([⟨2, [(0, 0, false)], [[(0, 0, false)]]⟩] : List Gen.TraceEntry)) := by decide
  have hK : Sky.nest c1SkyCfg [⟨4, 4⟩] =
      Except.ok ([{ width := 10, height := 10,
                    placements := [{ x := 0, y := 0, width := 4, height := 4,
                                     rotation := 0, shapeIndex := 0 }],
                    skyline := [⟨0, 4, 4⟩, ⟨4, 0, 6⟩] }], []) := by decide
  refine ⟨⟨hS, ?_⟩, ⟨hG, ?_⟩, ⟨hK, ?_⟩⟩
  · exact c1_no_overlap.1 validSimpleCfg [] [] [] hS
  · exact c1_no_overlap.2.1 oversizeCfg oversizeShapes (fun _ => 0) (fun _ => 0)
      _ _ hG
  · exact c1_no_overlap.2.2 c1SkyCfg [⟨4, 4⟩] _ [] (by decide) (by decide) hK

/-- C7: in the genetic optimizer the logged best-fitness values are
monotonically non-decreasing across generations, and each generation's new
population is headed by the retained best genome unmodified (elitism). -/
theorem c7_elitism_monotone {cfg : Gen.Config} {shapes : List Rect}
    {rq : ℕ → ℚ} {rn : ℕ → ℕ} {bins : List Gen.GBin} {tr : List Gen.TraceEntry}
    (h : Gen.nest cfg shapes rq rn = Except.ok (bins, tr)) :
    List.Chain' (fun a b => a.fitness ≤ b.fitness) tr ∧
    ∀ e ∈ tr, e.newPopulation.head? = some e.best := by
  obtain ⟨stF, g, hfold, _, _, htr⟩ := Gen.nest_ok_parts h
  have hinv := Gen.foldlM_generation_traceInv _ hfold
    ⟨List.chain'_nil, fun e he => absurd he (List.not_mem_nil e),
     fun e he => by simp at he⟩
  subst htr
  exact ⟨hinv.1, hinv.2.1⟩

unseal Rat.add Rat.mul Rat.inv Rat.sub Nat.gcd in
/-- Witness for C7: a concrete one-generation run; its log is monotone and
its logged population is headed by the logged best genome. -/
theorem c7_elitism_monotone_witness :
    List.Chain' (fun a b => a.fitness ≤ b.fitness)
      ([⟨2, [(0, 0, false)], [[(0, 0, false)]]⟩] : List Gen.TraceEntry) ∧
    ∀ e ∈ ([⟨2, [(0, 0, false)], [[(0, 0, false)]]⟩] : List Gen.TraceEntry),
      e.newPopulation.head? = some e.best := by
  have hG : Gen.nest oversizeCfg oversizeShapes (fun _ => 0) (fun _ => 0) =
      Except.ok ([{ width := 10, height := 10, placements := [] },
        { width := 10, height := 10,
          placements := [{ x := 0, y := 0, width := 20, height := 20,
                           rotation := 0, shapeIndex := 0 }] }],
        ([⟨2, [(0, 0, false)], [[(0, 0, false)]]⟩] : List Gen.TraceEntry)) := by decide
  exact c7_elitism_monotone hG

/-- C9: `transform_point` is exactly rotation before translation with no
scaling: it equals the translation by `(placement.x, placement.y)` of the
counter-clockwise rotation of the point by `radians(placement.rotation)`,
its value is the claimed closed form, and `rotateCCW` really is the
standard counter-clockwise rotation (multiplication by `exp(iθ)` on the
plane). -/
theorem c9_transform_rotate_then_translate :
    (∀ (point : ℝ × ℝ) (placement : Plc),
      Dxf.transform_point point placement =
        Dxf.translate (((placement.x : ℚ) : ℝ), ((placement.y : ℚ) : ℝ))
          (Dxf.rotateCCW (Dxf.radians ((placement.rotation : ℚ) : ℝ)) point)) ∧
    (∀ (point : ℝ × ℝ) (placement : Plc),
      Dxf.transform_point point placement =
        (point.1 * Real.cos (Dxf.radians ((placement.rotation : ℚ) : ℝ)) -
           point.2 * Real.sin (Dxf.radians ((placement.rotation : ℚ) : ℝ)) +
           ((placement.x : ℚ) : ℝ),
         point.1 * Real.sin (Dxf.radians ((placement.rotation : ℚ) : ℝ)) +
           point.2 * Real.cos (Dxf.radians ((placement.rotation : ℚ) : ℝ)) +
           ((placement.y : ℚ) : ℝ))) ∧
    (∀ (θ : ℝ) (p : ℝ × ℝ),
      (((Dxf.rotateCCW θ p).1 : ℂ) + ((Dxf.rotateCCW θ p).2 : ℂ) * Complex.I) =
        Complex.exp ((θ : ℂ) * Complex.I) * ((p.1 : ℂ) + (p.2 : ℂ) * Complex.I)) := by
  refine ⟨fun point placement => rfl, fun point placement => rfl, ?_⟩
  intro θ p
  rw [Complex.exp_mul_I]
  unfold Dxf.rotateCCW
  rw [← Complex.ofReal_cos, ← Complex.ofReal_sin]
  simp only [Complex.ofReal_sub, Complex.ofReal_add, Complex.ofReal_mul]
  ring_nf
  rw [Complex.I_sq]
  ring

unseal List.merge List.mergeSort Rat.add Rat.mul Rat.inv Rat.sub Nat.gcd in
/-- Witness for C5's amended statement: the zero-step configuration on a
one-shape input ends in the division error. -/
theorem c5_zero_steps_witness :
    SimpleN.nest zeroStepCfg [⟨4, 4⟩] = Except.error PyErr.zeroDivision :=
  c5_zero_steps_fails_inside_nest zeroStepCfg rfl [⟨4, 4⟩] (by decide)

unseal Rat.add Rat.mul Rat.inv Rat.sub Nat.gcd in
/-- Witness for C6: the nester.py split of a 10×10 space consumed by a 4×4
placement agrees with the spec-modelled guillotine split. -/
theorem c6_guillotine_split_witness :
    NesterPy.update_spaces [⟨0, 0, 10, 10, 0, 0⟩] 0 ⟨0, 0, 4, 4, 0, 0⟩ =
      specGuillotineUpdate [⟨0, 0, 10, 10, 0, 0⟩] 0 ⟨0, 0, 4, 4, 0, 0⟩ :=
  c6_guillotine_split_refines [⟨0, 0, 10, 10, 0, 0⟩] 0 ⟨0, 0, 4, 4, 0, 0⟩ (by decide)

unseal List.merge List.mergeSort Rat.add Rat.mul Rat.inv Rat.sub Nat.gcd in
/-- Witness for C3: concrete successful runs of both nesters whose placed
and unplaced indices partition the input range. -/
theorem c3_conservation_witness :
    List.Perm (NesterPy.placedIdx
      [{ width := 10, height := 10,
         placements := [{ x := 0, y := 0, width := 4, height := 4,
                          rotation := 0, shapeIndex := 0 }] }] ++
        ([] : List ℕ))
      (List.range 1) ∧
    List.Perm (SimpleN.placedIndices [] ++ [0]) (List.range 1) ∧
    List.Perm (NesterPy.placedIdx (RectN.binsFromPacker 10 10 [[⟨0, 0, 0, 4, 4⟩]]) ++
      RectN.unpacked_shapes 2 (RectN.binsFromPacker 10 10 [[⟨0, 0, 0, 4, 4⟩]]))
      (List.range 2) := by
  have hN : NesterPy.nest c3NpCfg [⟨4, 4⟩] =
      Except.ok ([{ width := 10, height := 10,
                    placements := [{ x := 0, y := 0, width := 4, height := 4,
                                     rotation := 0, shapeIndex := 0 }] }], []) := by decide
  have hS : SimpleN.nest validSimpleCfg [⟨20, 20⟩] = Except.ok ([], [0]) := by decide
  exact ⟨c3_conservation.1 c3NpCfg [⟨4, 4⟩] _ [] hN,
    c3_conservation.2.1 validSimpleCfg [⟨20, 20⟩] [] [0] hS,
    c3_conservation.2.2 2 10 10 [[⟨0, 0, 0, 4, 4⟩]] ⟨by decide, by decide⟩⟩

unseal Rat.add Rat.mul Rat.inv Rat.sub Nat.gcd in
/-- Witness for C10: a concrete enumerated candidate of the simple nester
has integer coordinates. -/
theorem c10_integer_grid_witness :
    (∃ i : ℤ, ((⟨0, 0, 4, 4, 0, 0⟩ : Plc)).x = (i : ℚ)) ∧
    ∃ j : ℤ, ((⟨0, 0, 4, 4, 0, 0⟩ : Plc)).y = (j : ℚ) :=
  c10_integer_grid.1 validSimpleCfg ⟨4, 4⟩ ⟨0, 0, 10, 10, 0, 0⟩
    ⟨0, 0, 4, 4, 0, 0⟩ (by decide)

